import Mathlib

/-!
Verification development for the Chronos time-tracking core.

Shallow embedding of `src/store/timeStore.ts` (the timer state machine and
hierarchy operations over the Dexie-backed project table), of the project
rollup in `src/components/analytics/ProjectTimeBreakdown.tsx`, of the
hour-of-day distribution walk in the hourly activity chart, and of the
7-point moving average in `src/components/analytics/TimeDistributionChart.tsx`.

Modelling conventions:
* Timestamps are integers (milliseconds), as produced by `Date.getTime()`.
  `toUTC(new Date())` readings are abstracted as a single `now : Int`
  parameter per transition (a transition's inner helper calls reuse the
  same reading).
* Project ids are natural numbers; `uuidv4()` freshness is modelled by a
  `nextId` counter carried in the store state.
* The Dexie table is an association list of projects; `get`/`add`/`update`
  follow the persistence-gateway contract (get by primary key, add appends,
  update rewrites the record with the given key).
* JavaScript `Math.floor(a / b)` on integers is `Int.fdiv`; the float
  divisions in percentages and moving averages are modelled over `ℚ`.
* `childCount ?? 0` / `notes || ""` read fields that are always present in
  this model, so the defaulting is the identity.
* A thrown exception inside a store action's `try` block is caught and only
  logged, leaving both the table and the in-memory state unchanged; such
  paths (e.g. indexing into an empty `segments` array) are modelled as
  no-ops.
-/

namespace Chronos

/-- TimeSegment record from `lib/db`: start, optional end, cached seconds. -/
structure TimeSegment where
  startTime : Int
  endTime : Option Int
  duration : Int
deriving Repr, DecidableEq

/-- Project record from `lib/db` (also called "entry"). -/
structure Project where
  id : Nat
  title : String
  notes : String
  parentId : Option Nat
  path : List Nat
  depth : Nat
  segments : List TimeSegment
  duration : Int
  isActive : Bool
  tags : List String
  createdAt : Int
  updatedAt : Int
  childCount : Int
deriving Repr, DecidableEq

/-- The Dexie `projects` table, as an association list keyed by `id`. -/
abbrev DB := List Project

/-- Gateway `get(id)`: first record with the given primary key. -/
def dbGet (db : DB) (i : Nat) : Option Project :=
  db.find? (fun p => p.id == i)

/-- Gateway `add(project)`: appends the record. -/
def dbAdd (db : DB) (p : Project) : DB :=
  db ++ [p]

/-- Gateway `update(id, partial)`: rewrite the record with the given key. -/
def dbUpdate (db : DB) (i : Nat) (f : Project → Project) : DB :=
  db.map (fun p => if p.id == i then f p else p)

/-- Sum of the `duration` fields of a segment list
(the `reduce((total, s) => total + s.duration, 0)` idiom). -/
def sumDurations (segs : List TimeSegment) : Int :=
  segs.foldl (fun t sg => t + sg.duration) 0

/-- In-memory zustand store state (`TimeState`) plus the persisted table and
the uuid-freshness counter. -/
structure StoreState where
  currentEntry : Option Project
  isTimerRunning : Bool
  isPaused : Bool
  currentDisplayTime : Int
  totalAccumulatedTime : Int
  db : DB
  nextId : Nat
deriving Repr, DecidableEq

/-- The initial store: no current entry, timer idle, empty table. -/
def idleState : StoreState :=
  { currentEntry := none
    isTimerRunning := false
    isPaused := false
    currentDisplayTime := 0
    totalAccumulatedTime := 0
    db := []
    nextId := 0 }

/-- Embedding of `stopTimer`. When not paused it closes the last segment of
the current entry (an empty `segments` array would throw inside the `try`,
hence no-op); when paused it only clears `isActive`. -/
def stopTimer (s : StoreState) (now : Int) : StoreState :=
  match s.currentEntry with
  | none => s
  | some e =>
    if !s.isPaused then
      match e.segments.getLast? with
      | none => s
      | some seg =>
        let segmentDuration := (now - seg.startTime).fdiv 1000
        let updatedSegments :=
          e.segments.dropLast ++
            [{ seg with endTime := some now, duration := segmentDuration }]
        let totalDuration := sumDurations updatedSegments
        let db' := dbUpdate s.db e.id (fun p =>
          { p with segments := updatedSegments, duration := totalDuration,
                   isActive := false, updatedAt := now })
        { currentEntry := none, isTimerRunning := false, isPaused := false,
          currentDisplayTime := 0, totalAccumulatedTime := 0,
          db := db', nextId := s.nextId }
    else
      let db' := dbUpdate s.db e.id (fun p =>
        { p with isActive := false, updatedAt := now })
      { currentEntry := none, isTimerRunning := false, isPaused := false,
        currentDisplayTime := 0, totalAccumulatedTime := 0,
        db := db', nextId := s.nextId }

/-- Embedding of `startTimer`: auto-stop a running current entry, resolve the
optional parent (silently ignoring a dangling id), create and persist the
new project with one open segment, and make it current. -/
def startTimer (s : StoreState) (now : Int) (title notes : String)
    (tags : List String) (parentId : Option Nat) : StoreState :=
  let s1 := if s.isTimerRunning && s.currentEntry.isSome then stopTimer s now else s
  let newSegment : TimeSegment := { startTime := now, endTime := none, duration := 0 }
  let resolved : List Nat × Nat × DB :=
    match parentId with
    | some pid =>
      match dbGet s1.db pid with
      | some parent =>
        (parent.path ++ [parent.id], parent.depth + 1,
          dbUpdate s1.db pid (fun p =>
            { p with childCount := parent.childCount + 1, updatedAt := now }))
      | none => ([], 0, s1.db)
    | none => ([], 0, s1.db)
  let newEntry : Project :=
    { id := s1.nextId, title := title, notes := notes, parentId := parentId,
      path := resolved.1, depth := resolved.2.1,
      segments := [newSegment], duration := 0, isActive := true,
      tags := tags, createdAt := now, updatedAt := now, childCount := 0 }
  { currentEntry := some newEntry, isTimerRunning := true, isPaused := false,
    currentDisplayTime := 0, totalAccumulatedTime := 0,
    db := dbAdd resolved.2.2 newEntry, nextId := s1.nextId + 1 }

/-- Embedding of `pauseTimer`: from Running, close the last segment at `now`
with `duration = floor((now - startTime)/1000)`, recompute the cached total,
persist, refresh the current entry, and mark Paused. -/
def pauseTimer (s : StoreState) (now : Int) : StoreState :=
  match s.currentEntry with
  | none => s
  | some e =>
    if s.isTimerRunning && !s.isPaused then
      match e.segments.getLast? with
      | none => s
      | some seg =>
        let segmentDuration := (now - seg.startTime).fdiv 1000
        let updatedSegments :=
          e.segments.dropLast ++
            [{ seg with endTime := some now, duration := segmentDuration }]
        let totalDuration := sumDurations updatedSegments
        let db' := dbUpdate s.db e.id (fun p =>
          { p with segments := updatedSegments, duration := totalDuration,
                   updatedAt := now })
        { s with currentEntry := dbGet db' e.id, isPaused := true,
                 totalAccumulatedTime := totalDuration, db := db' }
    else s

/-- Embedding of `resumeTimer`: from Paused, append a fresh open segment,
persist, refresh, and return to Running. -/
def resumeTimer (s : StoreState) (now : Int) : StoreState :=
  match s.currentEntry with
  | none => s
  | some e =>
    if s.isPaused then
      let newSegment : TimeSegment := { startTime := now, endTime := none, duration := 0 }
      let updatedSegments := e.segments ++ [newSegment]
      let db' := dbUpdate s.db e.id (fun p =>
        { p with segments := updatedSegments, updatedAt := now })
      { s with currentEntry := dbGet db' e.id, isTimerRunning := true,
               isPaused := false, currentDisplayTime := 0, db := db' }
    else s

/-- Embedding of `resumeTask`: auto-stop a running current entry, load the
target (no-op when missing), append a fresh open segment, persist, and make
the target current and Running. -/
def resumeTask (s : StoreState) (now : Int) (entryId : Nat) : StoreState :=
  let s1 := if s.isTimerRunning && s.currentEntry.isSome then stopTimer s now else s
  match dbGet s1.db entryId with
  | none => s1
  | some entry =>
    let newSegment : TimeSegment := { startTime := now, endTime := none, duration := 0 }
    let updatedSegments := entry.segments ++ [newSegment]
    let db' := dbUpdate s1.db entryId (fun p =>
      { p with segments := updatedSegments, isActive := true, updatedAt := now })
    let totalCompleted := sumDurations entry.segments
    { currentEntry := dbGet db' entryId, isTimerRunning := true, isPaused := false,
      currentDisplayTime := 0, totalAccumulatedTime := totalCompleted,
      db := db', nextId := s1.nextId }

/-- Embedding of `wouldCreateCycle`: self-parenting, or the candidate parent
resolves and its `path` contains the project. A missing candidate yields
`false`. -/
def wouldCreateCycle (db : DB) (projectId newParentId : Nat) : Bool :=
  if projectId == newParentId then true
  else
    match dbGet db newParentId with
    | none => false
    | some parent => parent.path.contains projectId

/-- Embedding of `setParentForCurrentEntry`. Note the write order of the
source: the old parent's `childCount` is decremented before the new parent
is fetched, and a missing new parent returns without compensating. -/
def setParentForCurrentEntry (s : StoreState) (now : Int)
    (parentId : Option Nat) : StoreState :=
  match s.currentEntry with
  | none => s
  | some e =>
    let oldParentId := e.parentId
    if oldParentId == parentId then s
    else if (match parentId with
             | some pid => wouldCreateCycle s.db e.id pid
             | none => false) then s
    else
      let db1 :=
        match oldParentId with
        | some opid =>
          match dbGet s.db opid with
          | some oldParent =>
            dbUpdate s.db opid (fun p =>
              { p with childCount := max 0 (oldParent.childCount - 1),
                       updatedAt := now })
          | none => s.db
        | none => s.db
      match parentId with
      | none =>
        let db2 := dbUpdate db1 e.id (fun p =>
          { p with parentId := none, path := [], depth := 0, updatedAt := now })
        { s with db := db2, currentEntry := dbGet db2 e.id }
      | some pid =>
        match dbGet db1 pid with
        | none => { s with db := db1 }
        | some newParent =>
          let newPath := newParent.path ++ [newParent.id]
          let newDepth := newParent.depth + 1
          let db2 := dbUpdate db1 e.id (fun p =>
            { p with parentId := some pid, path := newPath, depth := newDepth,
                     updatedAt := now })
          let db3 := dbUpdate db2 pid (fun p =>
            { p with childCount := newParent.childCount + 1, updatedAt := now })
          { s with db := db3, currentEntry := dbGet db3 e.id }

/-- Embedding of `updateEntry`: recompute the cached duration, and when the
parent changed run the cycle check, adjust both parents' counters and the
entry's `path`/`depth`. -/
def updateEntry (s : StoreState) (now : Int) (entry : Project) : StoreState :=
  let totalDuration := sumDurations entry.segments
  match dbGet s.db entry.id with
  | none => s
  | some current =>
    if current.parentId ≠ entry.parentId then
      if (match entry.parentId with
          | some pid => wouldCreateCycle s.db entry.id pid
          | none => false) then s
      else
        let db1 :=
          match current.parentId with
          | some opid =>
            match dbGet s.db opid with
            | some oldParent =>
              dbUpdate s.db opid (fun p =>
                { p with childCount := max 0 (oldParent.childCount - 1),
                         updatedAt := now })
            | none => s.db
          | none => s.db
        let resolved : List Nat × Nat × DB :=
          match entry.parentId with
          | some pid =>
            match dbGet db1 pid with
            | some newParent =>
              (newParent.path ++ [newParent.id], newParent.depth + 1,
                dbUpdate db1 pid (fun p =>
                  { p with childCount := newParent.childCount + 1, updatedAt := now }))
            | none => ([], 0, db1)
          | none => ([], 0, db1)
        let db3 := dbUpdate resolved.2.2 entry.id (fun p =>
          { p with title := entry.title, notes := entry.notes,
                   segments := entry.segments, duration := totalDuration,
                   tags := entry.tags, parentId := entry.parentId,
                   path := resolved.1, depth := resolved.2.1, updatedAt := now })
        { s with db := db3 }
    else
      { s with db := dbUpdate s.db entry.id (fun p =>
          { p with title := entry.title, notes := entry.notes,
                   segments := entry.segments, duration := totalDuration,
                   tags := entry.tags, updatedAt := now }) }

/-- Embedding of JavaScript `String.prototype.trim`: strip leading and
trailing whitespace. -/
def jsTrim (s : String) : String :=
  ⟨((s.data.dropWhile Char.isWhitespace).reverse.dropWhile Char.isWhitespace).reverse⟩

/-- Embedding of the hook-level guard `handleStartTimer` in
`lib/hooks/useTimer.ts`: it only invokes `startTimer` when the trimmed title
is non-empty (`if (title.trim())`), and otherwise does nothing (no error is
surfaced). -/
def handleStartTimer (s : StoreState) (now : Int) (title notes : String)
    (tags : List String) (parentId : Option Nat) : StoreState :=
  if jsTrim title ≠ "" then startTimer s now title notes tags parentId else s

/-- One user-triggered timer transition, with its wall-clock reading. -/
inductive Action where
  | start (now : Int) (title notes : String) (tags : List String) (parentId : Option Nat)
  | pause (now : Int)
  | resume (now : Int)
  | stop (now : Int)
  | task (now : Int) (entryId : Nat)
deriving Repr

/-- Interpret one action on the store. -/
def step (s : StoreState) : Action → StoreState
  | .start now title notes tags parentId => startTimer s now title notes tags parentId
  | .pause now => pauseTimer s now
  | .resume now => resumeTimer s now
  | .stop now => stopTimer s now
  | .task now entryId => resumeTask s now entryId

/-- Run a sequence of timer transitions. -/
def run (s : StoreState) (as : List Action) : StoreState :=
  as.foldl step s

/-- Number of open (`endTime === null`) segments of one project. -/
def openCount (p : Project) : Nat :=
  (p.segments.filter (fun sg => sg.endTime.isNone)).length

/-- Number of open segments across the whole table. -/
def dbOpenCount (db : DB) : Nat :=
  (db.map openCount).sum

/-- A project all of whose segments are closed. -/
def closedProj (p : Project) : Prop :=
  ∀ sg ∈ p.segments, sg.endTime ≠ none

/-- State-machine invariant backing the single-open-segment property:
ids are fresh and duplicate-free, the in-memory copy of the current entry
agrees with the table, Running means exactly the current entry's last
segment is open, and otherwise no segment is open anywhere. -/
def Inv (s : StoreState) : Prop :=
  (s.db.map Project.id).Nodup ∧
  (∀ p ∈ s.db, p.id < s.nextId) ∧
  match s.currentEntry with
  | none => s.isTimerRunning = false ∧ ∀ p ∈ s.db, closedProj p
  | some e =>
    s.isTimerRunning = true ∧ dbGet s.db e.id = some e ∧
    (s.isPaused = true → ∀ p ∈ s.db, closedProj p) ∧
    (s.isPaused = false →
      (∃ seg, e.segments.getLast? = some seg ∧ seg.endTime = none ∧
        ∀ sg ∈ e.segments.dropLast, sg.endTime ≠ none) ∧
      (∀ p ∈ s.db, p.id ≠ e.id → closedProj p))

/-- Window-inclusion test of `ProjectTimeBreakdown.calculateBreakdown`:
`segment.duration && segment.duration > 0 && start >= startDate && start <= endDate`
(truthiness of a number is `≠ 0`). -/
def segInWindow (sd ed : Int) (sg : TimeSegment) : Bool :=
  (sg.duration != 0) && decide (0 < sg.duration) &&
    decide (sd ≤ sg.startTime) && decide (sg.startTime ≤ ed)

/-- Own seconds of a project in the window (`ownSecondsInPeriod`). -/
def ownSeconds (sd ed : Int) (p : Project) : Int :=
  p.segments.foldl (fun acc sg => if segInWindow sd ed sg then acc + sg.duration else acc) 0

/-- Direct-children adjacency (`projectChildrenMap`), in snapshot order. -/
def childrenOf (projects : List Project) (pid : Nat) : List Nat :=
  (projects.filter (fun q => q.parentId == some pid)).map (fun q => q.id)

/-- Lookup of `projectTimeMap.get(pid)?.ownSeconds` for the snapshot. -/
def ownOf (projects : List Project) (sd ed : Int) (pid : Nat) : Option Int :=
  (dbGet projects pid).map (ownSeconds sd ed)

/-- Mutable state of `calculateBreakdown`'s memoized recursion: the
`totalSeconds` column of `projectTimeMap`, and the `calculatedProjects` set
(kept as the list of ids in marking order). -/
structure AggState where
  totals : List (Nat × Int)
  calculated : List Nat
deriving Repr, DecidableEq

/-- Read `projectTimeMap.get(pid)?.totalSeconds ?? 0`. -/
def lookupTotal (st : AggState) (pid : Nat) : Int :=
  match st.totals.find? (fun kv => kv.1 == pid) with
  | some kv => kv.2
  | none => 0

/-- Write `projectTimeMap.get(pid)!.totalSeconds = v`. -/
def setTotal (ts : List (Nat × Int)) (pid : Nat) (v : Int) : List (Nat × Int) :=
  ts.map (fun kv => if kv.1 == pid then (kv.1, v) else kv)

/-- Embedding of `calculateAggregatedTime`: memo hit returns the stored
total; a missing `timeData` returns 0; otherwise own seconds plus the
recursively aggregated totals of the direct children present in the map,
clamped by `Math.max(0, ·)`, stored and marked. The fuel argument makes the
recursion structural; the source recursion terminates on acyclic parent
graphs, where sufficient fuel makes the two agree. -/
def calcAgg (own : Nat → Option Int) (children : Nat → List Nat) :
    Nat → AggState → Nat → AggState × Int
  | 0, st, _ => (st, 0)
  | fuel + 1, st, pid =>
    if pid ∈ st.calculated then (st, lookupTotal st pid)
    else
      match own pid with
      | none => (st, 0)
      | some ownS =>
        let folded := (children pid).foldl
          (fun (acc : AggState × Int) cid =>
            if (own cid).isSome then
              let r := calcAgg own children fuel acc.1 cid
              (r.1, acc.2 + r.2)
            else acc)
          (st, ownS)
        let total := max 0 folded.2
        (⟨setTotal folded.1.totals pid total, pid :: folded.1.calculated⟩, total)

/-- One fold step of `calculateAggregatedTime`'s children loop, as a named
function (definitionally the lambda in `calcAgg`). -/
def aggStep (own : Nat → Option Int) (children : Nat → List Nat) (fuel : Nat) :
    AggState × Int → Nat → AggState × Int :=
  fun acc cid =>
    if (own cid).isSome then
      ((calcAgg own children fuel acc.1 cid).1,
        acc.2 + (calcAgg own children fuel acc.1 cid).2)
    else acc

/-- Initial `projectTimeMap`: every project id mapped to total 0, nothing
calculated yet. -/
def initAgg (projects : List Project) : AggState :=
  ⟨projects.map (fun p => (p.id, 0)), []⟩

/-- The full aggregation pass: `allProjects.forEach(p => calculateAggregatedTime(p.id))`. -/
def runAgg (projects : List Project) (sd ed : Int) : AggState :=
  projects.foldl
    (fun st p =>
      if (ownOf projects sd ed p.id).isSome then
        (calcAgg (ownOf projects sd ed) (childrenOf projects)
          (projects.length + 1) st p.id).1
      else st)
    (initAgg projects)

/-- One step of the outer `allProjects.forEach` pass (definitionally the
lambda in `runAgg`). -/
def runStep (projects : List Project) (sd ed : Int) : AggState → Project → AggState :=
  fun st p =>
    if (ownOf projects sd ed p.id).isSome then
      (calcAgg (ownOf projects sd ed) (childrenOf projects)
        (projects.length + 1) st p.id).1
    else st

/-- Top-level projects (`!p.parentId`). -/
def topLevel (projects : List Project) : List Project :=
  projects.filter (fun p => p.parentId == none)

/-- Overall total: sum of top-level totals, clamped by `Math.max(0, ·)`. -/
def overallTotal (projects : List Project) (st : AggState) : Int :=
  max 0 ((topLevel projects).foldl (fun sum p => sum + lookupTotal st p.id) 0)

/-- Percentage shown for a project: `total / overall * 100` when the overall
total is positive, else 0 (the JS float division modelled over `ℚ`). -/
def percentageOf (st : AggState) (overall : Int) (pid : Nat) : ℚ :=
  if 0 < overall then ((lookupTotal st pid : ℚ) / (overall : ℚ)) * 100 else 0

/-- Embedding of `processSingleDayRange` from the hourly activity chart:
walk a same-day range hour chunk by hour chunk, adding the whole minutes
`floor(chunk_ms / 60000)` of each chunk to that hour's bucket. Timestamps
are local-time milliseconds, so `getHours` is `t / 3600000 % 24` and
`setHours(hour+1,0,0,0)` is the next hour boundary. -/
def processSingleDayRange (t e : Nat) (map : List Nat) : List Nat :=
  if _h : t < e then
    let hour := t / 3600000 % 24
    let nextHour := (t / 3600000 + 1) * 3600000
    let endOfChunk := min nextHour e
    let durationMs := endOfChunk - t
    let minutesInChunk := durationMs / 60000
    let map' :=
      if 0 < durationMs then
        if 0 < minutesInChunk then map.set hour (map.getD hour 0 + minutesInChunk)
        else map
      else map
    processSingleDayRange endOfChunk e map'
  else map
termination_by e - t
decreasing_by
  have h1 : t / 3600000 * 3600000 ≤ t := Nat.div_mul_le_self t 3600000
  simp only [Nat.add_mul, Nat.one_mul]
  omega

/-- The 24 hourly buckets, initially all zero (`new Array(24).fill(0)`). -/
def zeroHours : List Nat :=
  List.replicate 24 0

/-- Embedding of the 7-day moving-average pass of `TimeDistributionChart`:
each point keeps its minutes value and, from index 6 on, gains the mean of
the 7-point window `data.slice(index - 7 + 1, index + 1)` (JS float mean
modelled over `ℚ`); earlier points carry no moving average. -/
def movingAverageSeries (data : List ℚ) : List (ℚ × Option ℚ) :=
  (List.range data.length).map (fun i =>
    (data.getD i 0,
      if 7 - 1 ≤ i then
        some ((((data.take (i + 1)).drop (i + 1 - 7)).foldl (fun a c => a + c) 0) / 7)
      else none))

/-- Accumulated totals of the `own`-defined members of a child list, read in
a given aggregation state. -/
def listChildSum (own : Nat → Option Int) (st : AggState) (cs : List Nat) : Int :=
  ((cs.filter (fun c => (own c).isSome)).map (lookupTotal st)).sum

/-- Keys invariant of `projectTimeMap`: every id with own-seconds data has a
row in the totals column. -/
def KeysOk (own : Nat → Option Int) (st : AggState) : Prop :=
  ∀ q, (own q).isSome → (st.totals.find? (fun kv => kv.1 == q)).isSome

/-- Coherence of an intermediate aggregation state: the marking list has no
duplicates, the totals column has all needed rows, and every marked project
carries its final equation (own seconds plus the marked children's totals,
clamped at 0). -/
def Coherent (own : Nat → Option Int) (children : Nat → List Nat) (st : AggState) : Prop :=
  st.calculated.Nodup ∧ KeysOk own st ∧
  ∀ q ∈ st.calculated,
    ∃ v, own q = some v ∧
      (∀ c ∈ children q, (own c).isSome → c ∈ st.calculated) ∧
      lookupTotal st q = max 0 (v + listChildSum own st (children q))

/-- Monotone evolution of the aggregation state: marked projects stay
marked with unchanged totals, and the totals column keeps its keys. -/
def AggExtends (st st' : AggState) : Prop :=
  (∀ q ∈ st.calculated, q ∈ st'.calculated) ∧
  (∀ q ∈ st.calculated, lookupTotal st' q = lookupTotal st q) ∧
  (∀ q, (st'.totals.find? (fun kv => kv.1 == q)).isSome =
    (st.totals.find? (fun kv => kv.1 == q)).isSome)

/-- Concrete root project for the rollup witness: 60 in-window seconds. -/
def aggP0 : Project :=
  { id := 0, title := "root", notes := "", parentId := none, path := [],
    depth := 0, segments := [{ startTime := 5, endTime := some 65, duration := 60 }],
    duration := 60, isActive := false, tags := [], createdAt := 0,
    updatedAt := 0, childCount := 1 }

/-- Concrete child project for the rollup witness: 30 in-window seconds. -/
def aggP1 : Project :=
  { id := 1, title := "leaf", notes := "", parentId := some 0, path := [0],
    depth := 1, segments := [{ startTime := 5, endTime := some 35, duration := 30 }],
    duration := 30, isActive := false, tags := [], createdAt := 0,
    updatedAt := 0, childCount := 0 }

/-- Concrete two-project snapshot for the rollup witness. -/
def aggProjectsEx : List Project :=
  [aggP0, aggP1]

/-- Rank function witnessing the acyclicity of `aggProjectsEx`. -/
def aggRankEx : Nat → Nat :=
  fun pid => if pid = 0 then 1 else 0

/-- Concrete child project used in the counterexamples: id 0, currently
parented under project 1. -/
def exChild : Project :=
  { id := 0, title := "child", notes := "", parentId := some 1, path := [1],
    depth := 1, segments := [], duration := 0, isActive := false, tags := [],
    createdAt := 0, updatedAt := 0, childCount := 0 }

/-- Concrete parent project used in the counterexamples: id 1, one child. -/
def exParent : Project :=
  { id := 1, title := "parent", notes := "", parentId := none, path := [],
    depth := 0, segments := [], duration := 0, isActive := false, tags := [],
    createdAt := 0, updatedAt := 0, childCount := 1 }

/-- Concrete store for the counterexamples: the child is the current entry,
the table holds the child and its parent, the timer is idle. -/
def exState : StoreState :=
  { currentEntry := some exChild, isTimerRunning := false, isPaused := false,
    currentDisplayTime := 0, totalAccumulatedTime := 0,
    db := [exChild, exParent], nextId := 2 }

/-- Concrete running entry with one open segment started at t = 1000 ms. -/
def runEntryEx : Project :=
  { id := 0, title := "t", notes := "", parentId := none, path := [],
    depth := 0, segments := [{ startTime := 1000, endTime := none, duration := 0 }],
    duration := 0, isActive := true, tags := [], createdAt := 1000,
    updatedAt := 1000, childCount := 0 }

/-- Concrete Running store built around `runEntryEx`. -/
def runStateEx : StoreState :=
  { currentEntry := some runEntryEx, isTimerRunning := true, isPaused := false,
    currentDisplayTime := 0, totalAccumulatedTime := 0,
    db := [runEntryEx], nextId := 1 }

/-- A fresh open segment started at `now`. -/
def openSeg (now : Int) : TimeSegment :=
  { startTime := now, endTime := none, duration := 0 }

/-- The segment list produced when closing the last segment `seg` of `e` at
`now`. -/
def closedSegs (e : Project) (seg : TimeSegment) (now : Int) : List TimeSegment :=
  e.segments.dropLast ++
    [{ seg with endTime := some now, duration := (now - seg.startTime).fdiv 1000 }]

/-- The record update persisted by `pauseTimer`. -/
def pauseUpd (e : Project) (seg : TimeSegment) (now : Int) : Project → Project :=
  fun p =>
    { p with segments := closedSegs e seg now,
             duration := sumDurations (closedSegs e seg now), updatedAt := now }

/-- The record update persisted by `resumeTimer`. -/
def resumeUpd (e : Project) (now : Int) : Project → Project :=
  fun p =>
    { p with segments := e.segments ++ [openSeg now], updatedAt := now }

/-- The record update persisted by `resumeTask`. -/
def taskUpd (entry : Project) (now : Int) : Project → Project :=
  fun p =>
    { p with segments := entry.segments ++ [openSeg now], isActive := true,
             updatedAt := now }

section Lemmas

variable {db : DB}

theorem dbGet_cons (p : Project) (rest : DB) (j : Nat) :
    dbGet (p :: rest) j = if p.id = j then some p else dbGet rest j := by
  simp only [dbGet, List.find?_cons]
  by_cases h : p.id = j
  · simp [h]
  · have hb : (p.id == j) = false := beq_eq_false_iff_ne.mpr h
    simp [hb, h]

theorem dbUpdate_cons (p : Project) (rest : DB) (i : Nat) (f : Project → Project) :
    dbUpdate (p :: rest) i f = (if p.id = i then f p else p) :: dbUpdate rest i f := by
  simp only [dbUpdate, List.map_cons, beq_iff_eq]

theorem dbGet_dbUpdate (db : DB) (i : Nat) (f : Project → Project)
    (hf : ∀ p, (f p).id = p.id) (j : Nat) :
    dbGet (dbUpdate db i f) j = if j = i then (dbGet db i).map f else dbGet db j := by
  induction db with
  | nil => simp [dbGet, dbUpdate]
  | cons p rest ih =>
    rw [dbUpdate_cons]
    by_cases h1 : p.id = i
    · by_cases h2 : j = i
      · subst h2
        simp [dbGet_cons, hf, h1]
      · have h3 : ¬ p.id = j := by omega
        have h4 : ¬ i = j := by omega
        simp [dbGet_cons, hf, h1, h2, h3, h4, ih]
    · by_cases h2 : j = i
      · subst h2
        simp [dbGet_cons, h1, ih]
      · by_cases h3 : p.id = j <;> simp [dbGet_cons, h1, h2, h3, ih]

theorem dbUpdate_map_id (db : DB) (i : Nat) (f : Project → Project)
    (hf : ∀ p, (f p).id = p.id) :
    (dbUpdate db i f).map Project.id = db.map Project.id := by
  induction db with
  | nil => rfl
  | cons p rest ih =>
    rw [dbUpdate_cons, List.map_cons, List.map_cons, ih]
    by_cases h1 : p.id = i
    · simp [h1, hf]
    · simp [h1]

theorem dbGet_eq_some {i : Nat} {p : Project} (h : dbGet db i = some p) :
    p ∈ db ∧ p.id = i := by
  refine ⟨List.mem_of_find?_eq_some h, ?_⟩
  have := List.find?_some h
  simpa using this

end Lemmas

theorem pauseTimer_not_running (s : StoreState) (now : Int)
    (h : s.isTimerRunning = false) : pauseTimer s now = s := by
  cases hc : s.currentEntry <;> simp [pauseTimer, hc, h]

theorem pauseTimer_paused (s : StoreState) (now : Int)
    (h : s.isPaused = true) : pauseTimer s now = s := by
  cases hc : s.currentEntry <;> simp [pauseTimer, hc, h]

theorem pauseTimer_cases (s : StoreState) (now : Int) :
    (pauseTimer s now).isPaused = true ∨ ∀ m, pauseTimer s m = s := by
  cases hc : s.currentEntry with
  | none => exact Or.inr (fun m => by simp [pauseTimer, hc])
  | some e =>
    cases hr : s.isTimerRunning with
    | false => exact Or.inr (fun m => pauseTimer_not_running s m hr)
    | true =>
      cases hp : s.isPaused with
      | true => exact Or.inr (fun m => pauseTimer_paused s m hp)
      | false =>
        cases hl : e.segments.getLast? with
        | none => exact Or.inr (fun m => by simp [pauseTimer, hc, hr, hp, hl])
        | some seg => exact Or.inl (by simp [pauseTimer, hc, hr, hp, hl])

/-- C9: `pauseTimer` is idempotent — a second call in a row leaves the store
(including the persisted table) exactly as after the first — and a call made
while not running, or already paused, is a silent no-op. -/
theorem claim_C9 :
    (∀ (s : StoreState) (n1 n2 : Int),
        pauseTimer (pauseTimer s n1) n2 = pauseTimer s n1) ∧
    (∀ (s : StoreState) (n : Int), s.isTimerRunning = false → pauseTimer s n = s) ∧
    (∀ (s : StoreState) (n : Int), s.isPaused = true → pauseTimer s n = s) := by
  refine ⟨fun s n1 n2 => ?_, fun s n h => pauseTimer_not_running s n h,
    fun s n h => pauseTimer_paused s n h⟩
  rcases pauseTimer_cases s n1 with h | h
  · exact pauseTimer_paused _ n2 h
  · rw [h n1, h n2]

/-- Witness for C9 at concrete inputs. -/
theorem claim_C9_witness :
    pauseTimer (pauseTimer idleState 3) 7 = pauseTimer idleState 3 ∧
    (idleState.isTimerRunning = false ∧ pauseTimer idleState 5 = idleState) ∧
    (({ idleState with isPaused := true } : StoreState).isPaused = true ∧
      pauseTimer { idleState with isPaused := true } 5 =
        { idleState with isPaused := true }) :=
  ⟨claim_C9.1 idleState 3 7,
   ⟨rfl, claim_C9.2.1 idleState 5 rfl⟩,
   ⟨rfl, claim_C9.2.2 { idleState with isPaused := true } 5 rfl⟩⟩

/-- C4: `pauseTimer` called in the Running state closes the open last
segment at `now` with `duration = floor((now - startTime)/1000)` and caches
the entry's duration as the sum of all segment durations after the update,
both in memory and in the table. -/
theorem claim_C4 (s : StoreState) (now : Int) (e : Project) (sg : TimeSegment)
    (hce : s.currentEntry = some e) (hrun : s.isTimerRunning = true)
    (hpau : s.isPaused = false) (hlast : e.segments.getLast? = some sg)
    (hopen : sg.endTime = none) (hsync : dbGet s.db e.id = some e) :
    (pauseTimer s now).currentEntry =
      some { e with
        segments := e.segments.dropLast ++
          [{ sg with endTime := some now, duration := (now - sg.startTime).fdiv 1000 }],
        duration := sumDurations (e.segments.dropLast ++
          [{ sg with endTime := some now, duration := (now - sg.startTime).fdiv 1000 }]),
        updatedAt := now } ∧
    dbGet (pauseTimer s now).db e.id = (pauseTimer s now).currentEntry := by
  have hf : ∀ p : Project,
      (({ p with
          segments := e.segments.dropLast ++
            [{ sg with endTime := some now, duration := (now - sg.startTime).fdiv 1000 }],
          duration := sumDurations (e.segments.dropLast ++
            [{ sg with endTime := some now, duration := (now - sg.startTime).fdiv 1000 }]),
          updatedAt := now } : Project)).id = p.id := fun p => rfl
  constructor
  · simp only [pauseTimer, hce, hrun, hpau, hlast, Bool.not_false, Bool.and_self]
    rw [dbGet_dbUpdate _ _ _ hf, if_pos rfl, hsync]
    rfl
  · simp [pauseTimer, hce, hrun, hpau, hlast]

/-- Witness for C4: pausing a one-open-segment running store. -/
theorem claim_C4_witness :
    (pauseTimer runStateEx 4500).currentEntry =
      some { runEntryEx with
              segments := [{ startTime := 1000, endTime := some 4500, duration := 3 }],
              duration := 3, updatedAt := 4500 } ∧
    dbGet (pauseTimer runStateEx 4500).db 0 = (pauseTimer runStateEx 4500).currentEntry := by
  have h := claim_C4 runStateEx 4500 runEntryEx
    { startTime := 1000, endTime := none, duration := 0 } rfl rfl rfl rfl rfl rfl
  refine ⟨?_, h.2⟩
  rw [h.1]
  rfl

/-- C10: starting a timer with a dangling `parentId` still succeeds — the
new project is persisted with the dangling `parentId`, an empty `path` and
depth 0, and every pre-existing record (in particular every `childCount`)
is untouched. -/
theorem claim_C10 (s : StoreState) (now : Int) (title notes : String)
    (tags : List String) (pid : Nat)
    (hidle : s.isTimerRunning = false) (hdangle : dbGet s.db pid = none) :
    startTimer s now title notes tags (some pid) =
      { currentEntry := some { id := s.nextId, title := title, notes := notes,
                               parentId := some pid, path := [], depth := 0,
                               segments := [{ startTime := now, endTime := none,
                                              duration := 0 }],
                               duration := 0, isActive := true, tags := tags,
                               createdAt := now, updatedAt := now, childCount := 0 },
        isTimerRunning := true, isPaused := false, currentDisplayTime := 0,
        totalAccumulatedTime := 0,
        db := s.db ++ [{ id := s.nextId, title := title, notes := notes,
                         parentId := some pid, path := [], depth := 0,
                         segments := [{ startTime := now, endTime := none,
                                        duration := 0 }],
                         duration := 0, isActive := true, tags := tags,
                         createdAt := now, updatedAt := now, childCount := 0 }],
        nextId := s.nextId + 1 } := by
  simp [startTimer, hidle, hdangle, dbAdd]

/-- Witness for C10: dangling parent id 42 on the empty idle store. -/
theorem claim_C10_witness :
    idleState.isTimerRunning = false ∧ dbGet idleState.db 42 = none ∧
    startTimer idleState 9 "a" "b" ["x"] (some 42) =
      { currentEntry := some { id := 0, title := "a", notes := "b",
                               parentId := some 42, path := [], depth := 0,
                               segments := [{ startTime := 9, endTime := none,
                                              duration := 0 }],
                               duration := 0, isActive := true, tags := ["x"],
                               createdAt := 9, updatedAt := 9, childCount := 0 },
        isTimerRunning := true, isPaused := false, currentDisplayTime := 0,
        totalAccumulatedTime := 0,
        db := [{ id := 0, title := "a", notes := "b",
                 parentId := some 42, path := [], depth := 0,
                 segments := [{ startTime := 9, endTime := none, duration := 0 }],
                 duration := 0, isActive := true, tags := ["x"],
                 createdAt := 9, updatedAt := 9, childCount := 0 }],
        nextId := 1 } :=
  ⟨rfl, rfl, claim_C10 idleState 9 "a" "b" ["x"] 42 rfl rfl⟩

/-- C5 counterexample: the store-level `startTimer` performs no title
validation — called with the empty title on the idle empty store it
persists a new project with empty title (so the claimed "fails with a
ValidationError and no new project is created or persisted" is false). -/
theorem claim_C5_counterexample :
    jsTrim "" = "" ∧
    (startTimer idleState 0 "" "" [] none).db =
      [{ id := 0, title := "", notes := "", parentId := none, path := [],
         depth := 0, segments := [{ startTime := 0, endTime := none, duration := 0 }],
         duration := 0, isActive := true, tags := [], createdAt := 0,
         updatedAt := 0, childCount := 0 }] := by
  exact ⟨rfl, rfl⟩

/-- C5 amended: the UI hook `handleStartTimer` silently skips the start when
the trimmed title is empty (no error is surfaced, nothing is persisted),
while the store-level `startTimer` itself validates nothing and persists a
new project whatever the title. -/
theorem claim_C5_amended :
    (∀ (s : StoreState) (now : Int) (title notes : String) (tags : List String)
        (pid : Option Nat), jsTrim title = "" →
        handleStartTimer s now title notes tags pid = s) ∧
    (∀ (s : StoreState) (now : Int) (title notes : String) (tags : List String),
        s.isTimerRunning = false →
        (startTimer s now title notes tags none).db = s.db ++
          [{ id := s.nextId, title := title, notes := notes, parentId := none,
             path := [], depth := 0,
             segments := [{ startTime := now, endTime := none, duration := 0 }],
             duration := 0, isActive := true, tags := tags, createdAt := now,
             updatedAt := now, childCount := 0 }]) := by
  constructor
  · intro s now title notes tags pid h
    simp [handleStartTimer, h]
  · intro s now title notes tags h
    simp [startTimer, h, dbAdd]

/-- Witness for C5's amended statement at concrete inputs. -/
theorem claim_C5_amended_witness :
    (jsTrim "" = "" ∧ handleStartTimer idleState 0 "" "" [] none = idleState) ∧
    (idleState.isTimerRunning = false ∧
      (startTimer idleState 0 "" "n" [] none).db = idleState.db ++
        [{ id := 0, title := "", notes := "n", parentId := none, path := [],
           depth := 0, segments := [{ startTime := 0, endTime := none, duration := 0 }],
           duration := 0, isActive := true, tags := [], createdAt := 0,
           updatedAt := 0, childCount := 0 }]) :=
  ⟨⟨rfl, claim_C5_amended.1 idleState 0 "" "" [] none rfl⟩,
   ⟨rfl, claim_C5_amended.2 idleState 0 "" "n" [] rfl⟩⟩

/-- C2 counterexample: reparenting the current entry to the dangling id 99
decrements the old parent's `childCount` (1 → 0) and touches its
`updatedAt`, while the project itself is left unchanged — the three touched
records are not all left at their pre-operation values. -/
theorem claim_C2_counterexample :
    dbGet exState.db 1 = some exParent ∧ exParent.childCount = 1 ∧
    dbGet (setParentForCurrentEntry exState 5 (some 99)).db 1 =
      some { exParent with childCount := 0, updatedAt := 5 } ∧
    dbGet (setParentForCurrentEntry exState 5 (some 99)).db 0 = some exChild := by
  exact ⟨rfl, rfl, rfl, rfl⟩

/-- C2 amended: `setParentForCurrentEntry` is not atomic — when the new
parent id does not resolve, it returns only after the old parent's
`childCount` has already been decremented (floored at 0) and its
`updatedAt` touched; the project and all other records keep their
pre-operation values. -/
theorem claim_C2_amended (s : StoreState) (now : Int) (e oldP : Project)
    (opid pid : Nat) (hce : s.currentEntry = some e) (hop : e.parentId = some opid)
    (hne : opid ≠ pid) (hneid : e.id ≠ pid)
    (hold : dbGet s.db opid = some oldP) (hnew : dbGet s.db pid = none) :
    setParentForCurrentEntry s now (some pid) =
      { s with db := dbUpdate s.db opid (fun p =>
          { p with childCount := max 0 (oldP.childCount - 1), updatedAt := now }) } := by
  have hcyc : wouldCreateCycle s.db e.id pid = false := by
    simp [wouldCreateCycle, hneid, hnew]
  have hf : ∀ p : Project,
      (({ p with childCount := max 0 (oldP.childCount - 1), updatedAt := now } : Project)).id
        = p.id := fun p => rfl
  have hget : dbGet (dbUpdate s.db opid (fun p =>
      { p with childCount := max 0 (oldP.childCount - 1), updatedAt := now })) pid = none := by
    rw [dbGet_dbUpdate _ _ _ hf, if_neg (Ne.symm hne), hnew]
  simp [setParentForCurrentEntry, hce, hop, hne, hcyc, hold, hget]

/-- Witness for C2's amended statement: the concrete dangling reparent. -/
theorem claim_C2_amended_witness :
    setParentForCurrentEntry exState 5 (some 99) =
      { exState with db := dbUpdate exState.db 1 (fun p =>
          { p with childCount := max 0 (exParent.childCount - 1), updatedAt := 5 }) } :=
  claim_C2_amended exState 5 exChild exParent 1 99 rfl rfl (by decide) (by decide) rfl rfl

/-- C3: the cycle check succeeds (returns `true`, rejecting the assignment
and leaving the store untouched) exactly when the candidate parent equals
the project or the project occurs in the candidate's resolved `path`; both
`setParentForCurrentEntry` and `updateEntry` then change nothing. -/
theorem claim_C3 :
    (∀ (db : DB) (x y : Nat), wouldCreateCycle db x y = true ↔
        x = y ∨ ∃ p, dbGet db y = some p ∧ x ∈ p.path) ∧
    (∀ (s : StoreState) (now : Int) (e : Project) (pid : Nat),
        s.currentEntry = some e →
        wouldCreateCycle s.db e.id pid = true →
        setParentForCurrentEntry s now (some pid) = s) ∧
    (∀ (s : StoreState) (now : Int) (entry c : Project) (pid : Nat),
        entry.parentId = some pid →
        dbGet s.db entry.id = some c → c.parentId ≠ entry.parentId →
        wouldCreateCycle s.db entry.id pid = true →
        updateEntry s now entry = s) := by
  refine ⟨fun db x y => ?_, fun s now e pid hce hcyc => ?_, ?_⟩
  · unfold wouldCreateCycle
    by_cases hxy : x = y
    · simp [hxy]
    · have hb : (x == y) = false := beq_eq_false_iff_ne.mpr hxy
      cases hg : dbGet db y with
      | none => simp [hb, hxy, hg]
      | some p => simp [hb, hxy, hg, List.contains]
  · by_cases hop : e.parentId = some pid
    · simp [setParentForCurrentEntry, hce, hop]
    · simp [setParentForCurrentEntry, hce, hop, hcyc]
  · intro s now entry c pid hep hget hne hcyc
    rw [hep] at hne
    simp [updateEntry, hget, hep, hcyc, hne]

/-- Witness for C3: self-parenting is rejected with no change. -/
theorem claim_C3_witness :
    (wouldCreateCycle exState.db 0 0 = true ↔
      (0 = 0 ∨ ∃ p, dbGet exState.db 0 = some p ∧ 0 ∈ p.path)) ∧
    setParentForCurrentEntry exState 5 (some 0) = exState ∧
    updateEntry exState 7 { exChild with parentId := some 0 } = exState :=
  ⟨claim_C3.1 exState.db 0 0,
   claim_C3.2.1 exState 5 exChild 0 rfl (by decide),
   claim_C3.2.2 exState 7 { exChild with parentId := some 0 } exChild 0 rfl rfl
     (by decide) (by decide)⟩

/-- C7: within a single day the hour walk splits a range at hour boundaries,
each chunk adding `floor(chunk_ms / 60000)` whole minutes to its hour's
bucket (sub-minute leftovers dropped); concretely, 10:00:00–11:30:00 puts
60 minutes in bucket 10, 30 minutes in bucket 11, and 0 elsewhere. -/
theorem claim_C7 :
    (∀ (t e : Nat) (map : List Nat), t < e →
        processSingleDayRange t e map =
          processSingleDayRange (min ((t / 3600000 + 1) * 3600000) e) e
            (if 0 < (min ((t / 3600000 + 1) * 3600000) e - t) / 60000 then
               map.set (t / 3600000 % 24)
                 (map.getD (t / 3600000 % 24) 0 +
                   (min ((t / 3600000 + 1) * 3600000) e - t) / 60000)
             else map)) ∧
    processSingleDayRange (10 * 3600000) (11 * 3600000 + 30 * 60000) zeroHours =
      (zeroHours.set 10 60).set 11 30 ∧
    ((zeroHours.set 10 60).set 11 30).getD 10 0 = 60 ∧
    ((zeroHours.set 10 60).set 11 30).getD 11 0 = 30 ∧
    ∀ hr, hr < 24 → hr ≠ 10 → hr ≠ 11 →
      ((zeroHours.set 10 60).set 11 30).getD hr 0 = 0 := by
  refine ⟨fun t e map h => ?_, ?_, by decide, by decide, by decide⟩
  · have h1 : t / 3600000 * 3600000 ≤ t := Nat.div_mul_le_self t 3600000
    have h3 : 0 < min ((t / 3600000 + 1) * 3600000) e - t := by
      rcases le_total ((t / 3600000 + 1) * 3600000) e with hle | hle
      · rw [min_eq_left hle]
        simp only [Nat.add_mul, Nat.one_mul]
        omega
      · rw [min_eq_right hle]
        omega
    conv_lhs => rw [processSingleDayRange]
    rw [dif_pos h]
    simp only [if_pos h3]
  · rw [processSingleDayRange]
    norm_num [zeroHours]
    rw [processSingleDayRange]
    norm_num
    rw [processSingleDayRange]
    norm_num

/-- Witness for C7's hypothesised parts at concrete inputs. -/
theorem claim_C7_witness :
    ((36000000 : Nat) < 41400000 ∧
      processSingleDayRange 36000000 41400000 zeroHours =
        processSingleDayRange (min ((36000000 / 3600000 + 1) * 3600000) 41400000) 41400000
          (if 0 < (min ((36000000 / 3600000 + 1) * 3600000) 41400000 - 36000000) / 60000 then
             zeroHours.set (36000000 / 3600000 % 24)
               (zeroHours.getD (36000000 / 3600000 % 24) 0 +
                 (min ((36000000 / 3600000 + 1) * 3600000) 41400000 - 36000000) / 60000)
           else zeroHours)) ∧
    ((5 : Nat) < 24 ∧ ((zeroHours.set 10 60).set 11 30).getD 5 0 = 0) :=
  ⟨⟨by norm_num, claim_C7.1 36000000 41400000 zeroHours (by norm_num)⟩,
   ⟨by norm_num, claim_C7.2.2.2.2 5 (by norm_num) (by norm_num) (by norm_num)⟩⟩

/-- C8: the 7-point trailing moving average is absent for the first 6 points
and from index 6 on equals the mean of the point and its 6 predecessors;
for daily totals [10,…,80] the 8th point's average is (20+…+80)/7. -/
theorem claim_C8 :
    (∀ data : List ℚ, (movingAverageSeries data).length = data.length) ∧
    (∀ (data : List ℚ) (i : Nat), i < data.length → i < 6 →
        ((movingAverageSeries data).getD i (0, none)).2 = none) ∧
    (∀ (data : List ℚ) (i : Nat), i < data.length → 6 ≤ i →
        ((movingAverageSeries data).getD i (0, none)).2 =
          some ((((data.drop (i - 6)).take 7).foldl (fun a c => a + c) 0) / 7)) ∧
    ((movingAverageSeries [10, 20, 30, 40, 50, 60, 70, 80]).getD 7 (0, none)).2 =
      some ((20 + 30 + 40 + 50 + 60 + 70 + 80) / 7) ∧
    ∀ i < 6, ((movingAverageSeries [10, 20, 30, 40, 50, 60, 70, 80]).getD i (0, none)).2
      = none := by
  refine ⟨fun data => by simp [movingAverageSeries], fun data i h1 h2 => ?_,
    fun data i h1 h2 => ?_, by norm_num [movingAverageSeries], ?_⟩
  · have h3 : ¬ (7 - 1 ≤ i) := by omega
    simp [movingAverageSeries, List.getD, List.getElem?_map, List.getElem?_range, h1, h3]
  · have h3 : (7 - 1 ≤ i) := by omega
    have h4 : (data.take (i + 1)).drop (i - 6) = (data.drop (i - 6)).take 7 := by
      rw [List.drop_take]
      congr 1
      omega
    simp [movingAverageSeries, List.getD, List.getElem?_map, List.getElem?_range, h1, h3, h4]
  · intro i hi
    interval_cases i <;> norm_num [movingAverageSeries]

/-- Witness for C8's hypothesised parts at concrete inputs. -/
theorem claim_C8_witness :
    ((1 : Nat) < 8 ∧ (1 : Nat) < 6 ∧
      ((movingAverageSeries [10, 20, 30, 40, 50, 60, 70, 80]).getD 1 (0, none)).2 = none) ∧
    ((7 : Nat) < 8 ∧ (6 : Nat) ≤ 7 ∧
      ((movingAverageSeries [10, 20, 30, 40, 50, 60, 70, 80]).getD 7 (0, none)).2 =
        some (((([10, 20, 30, 40, 50, 60, 70, 80].drop 1).take 7).foldl
          (fun a c => a + c) 0 : ℚ) / 7)) ∧
    ((3 : Nat) < 6 ∧
      ((movingAverageSeries [10, 20, 30, 40, 50, 60, 70, 80]).getD 3 (0, none)).2 = none) :=
  ⟨⟨by norm_num, by norm_num,
      claim_C8.2.1 [10, 20, 30, 40, 50, 60, 70, 80] 1 (by norm_num) (by norm_num)⟩,
   ⟨by norm_num, by norm_num,
      claim_C8.2.2.1 [10, 20, 30, 40, 50, 60, 70, 80] 7 (by norm_num) (by norm_num)⟩,
   ⟨by norm_num,
      claim_C8.2.2.2.2 3 (by norm_num)⟩⟩

theorem openCount_eq_zero (p : Project) (h : closedProj p) : openCount p = 0 := by
  unfold openCount
  rw [List.length_eq_zero]
  rw [List.filter_eq_nil]
  intro sg hsg
  have := h sg hsg
  simp [Option.isNone_iff_eq_none, this]

theorem dbOpenCount_cons (p : Project) (rest : DB) :
    dbOpenCount (p :: rest) = openCount p + dbOpenCount rest := by
  simp [dbOpenCount]

theorem dbOpenCount_zero (db : DB) (h : ∀ p ∈ db, closedProj p) :
    dbOpenCount db = 0 := by
  induction db with
  | nil => rfl
  | cons p rest ih =>
    rw [dbOpenCount_cons, openCount_eq_zero p (h p (by simp)), ih (fun q hq => h q (by simp [hq]))]

theorem dbOpenCount_eq (db : DB) (i : Nat) (q : Project)
    (hnd : (db.map Project.id).Nodup) (hget : dbGet db i = some q)
    (hothers : ∀ p ∈ db, p.id ≠ i → closedProj p) :
    dbOpenCount db = openCount q := by
  induction db with
  | nil => simp [dbGet] at hget
  | cons p rest ih =>
    rw [dbGet_cons] at hget
    rw [dbOpenCount_cons]
    rw [List.map_cons, List.nodup_cons] at hnd
    by_cases hp : p.id = i
    · rw [if_pos hp] at hget
      obtain rfl : p = q := by injection hget
      have hzero : dbOpenCount rest = 0 := by
        apply dbOpenCount_zero
        intro r hr
        apply hothers r (by simp [hr])
        intro hri
        exact hnd.1 (by rw [hp, ← hri]; exact List.mem_map_of_mem Project.id hr)
      omega
    · rw [if_neg hp] at hget
      rw [openCount_eq_zero p (hothers p (by simp) hp)]
      rw [ih hnd.2 hget (fun r hr hri => hothers r (by simp [hr]) hri)]
      omega

theorem mem_dbUpdate_elim {db : DB} {i : Nat} {f : Project → Project} {p' : Project}
    (h : p' ∈ dbUpdate db i f) :
    ∃ p, p ∈ db ∧ ((p.id = i ∧ p' = f p) ∨ (p.id ≠ i ∧ p' = p)) := by
  simp only [dbUpdate, List.mem_map] at h
  obtain ⟨p, hp, he⟩ := h
  by_cases hi : p.id = i
  · refine ⟨p, hp, Or.inl ⟨hi, ?_⟩⟩
    simp [hi] at he
    exact he.symm
  · refine ⟨p, hp, Or.inr ⟨hi, ?_⟩⟩
    have hb : (p.id == i) = false := beq_eq_false_iff_ne.mpr hi
    simp [hb] at he
    exact he.symm

theorem bound_dbUpdate {db : DB} {i : Nat} {f : Project → Project} {n : Nat}
    (hf : ∀ p, (f p).id = p.id) (hb : ∀ p ∈ db, p.id < n) :
    ∀ p ∈ dbUpdate db i f, p.id < n := by
  intro p' hp'
  obtain ⟨p, hp, hcase⟩ := mem_dbUpdate_elim hp'
  rcases hcase with ⟨hpi, hpe⟩ | ⟨hpi, hpe⟩
  · rw [hpe, hf]
    exact hb p hp
  · rw [hpe]
    exact hb p hp

theorem nodup_dbUpdate {db : DB} {i : Nat} {f : Project → Project}
    (hf : ∀ p, (f p).id = p.id) (h : (db.map Project.id).Nodup) :
    ((dbUpdate db i f).map Project.id).Nodup := by
  rw [dbUpdate_map_id db i f hf]
  exact h

theorem inv_open_le_one (s : StoreState) (h : Inv s) : dbOpenCount s.db ≤ 1 := by
  obtain ⟨hnd, _hb, hrest⟩ := h
  cases hce : s.currentEntry with
  | none =>
    rw [hce] at hrest
    rw [dbOpenCount_zero s.db hrest.2]
    omega
  | some e =>
    rw [hce] at hrest
    obtain ⟨_hrun, hsync, hpau, hrun2⟩ := hrest
    cases hp : s.isPaused with
    | true =>
      rw [dbOpenCount_zero s.db (hpau hp)]
      omega
    | false =>
      obtain ⟨⟨seg, hlast, hopen, hdrop⟩, hothers⟩ := hrun2 hp
      rw [dbOpenCount_eq s.db e.id e hnd hsync hothers]
      have hne : e.segments ≠ [] := by
        intro hnil
        rw [hnil] at hlast
        simp at hlast
      have hdecomp : e.segments = e.segments.dropLast ++ [seg] := by
        have h1 := List.dropLast_append_getLast hne
        rw [List.getLast?_eq_getLast _ hne] at hlast
        injection hlast with hlast
        rw [← hlast]
        exact h1.symm
      unfold openCount
      rw [hdecomp, List.filter_append]
      have hd : (e.segments.dropLast.filter (fun sg => sg.endTime.isNone)) = [] := by
        rw [List.filter_eq_nil]
        intro sg hsg
        have := hdrop sg hsg
        simp [Option.isNone_iff_eq_none, this]
      rw [hd]
      simp [hopen]

theorem stopTimer_none_eq (s : StoreState) (now : Int) (hce : s.currentEntry = none) :
    stopTimer s now = s := by
  unfold stopTimer
  rw [hce]

theorem stopTimer_paused_eq (s : StoreState) (now : Int) (e : Project)
    (hce : s.currentEntry = some e) (hp : s.isPaused = true) :
    stopTimer s now =
      { currentEntry := none, isTimerRunning := false, isPaused := false,
        currentDisplayTime := 0, totalAccumulatedTime := 0,
        db := dbUpdate s.db e.id (fun p =>
          { p with isActive := false, updatedAt := now }),
        nextId := s.nextId } := by
  unfold stopTimer
  rw [hce]
  simp [hp]

theorem stopTimer_running_eq (s : StoreState) (now : Int) (e : Project) (seg : TimeSegment)
    (hce : s.currentEntry = some e) (hp : s.isPaused = false)
    (hlast : e.segments.getLast? = some seg) :
    stopTimer s now =
      { currentEntry := none, isTimerRunning := false, isPaused := false,
        currentDisplayTime := 0, totalAccumulatedTime := 0,
        db := dbUpdate s.db e.id (fun p =>
          { p with
            segments := e.segments.dropLast ++
              [{ seg with endTime := some now,
                          duration := (now - seg.startTime).fdiv 1000 }],
            duration := sumDurations (e.segments.dropLast ++
              [{ seg with endTime := some now,
                          duration := (now - seg.startTime).fdiv 1000 }]),
            isActive := false, updatedAt := now }),
        nextId := s.nextId } := by
  unfold stopTimer
  rw [hce]
  simp [hp, hlast]

theorem inv_stop (s : StoreState) (now : Int) (h : Inv s) :
    Inv (stopTimer s now) ∧ (stopTimer s now).currentEntry = none ∧
    (stopTimer s now).nextId = s.nextId := by
  cases hce : s.currentEntry with
  | none =>
    rw [stopTimer_none_eq s now hce]
    exact ⟨h, hce, rfl⟩
  | some e =>
    obtain ⟨hnd, hb, hrest⟩ := h
    rw [hce] at hrest
    obtain ⟨hrun, hsync, hpau, hrun2⟩ := hrest
    cases hp : s.isPaused with
    | true =>
      rw [stopTimer_paused_eq s now e hce hp]
      refine ⟨⟨?_, ?_, rfl, ?_⟩, rfl, rfl⟩
      · exact nodup_dbUpdate (fun p => rfl) hnd
      · exact bound_dbUpdate (fun p => rfl) hb
      · intro p' hp'
        obtain ⟨p, hpm, hcase⟩ := mem_dbUpdate_elim hp'
        rcases hcase with ⟨hpi, hpe⟩ | ⟨hpi, hpe⟩ <;> rw [hpe]
        · exact fun sg hsg => hpau hp p hpm sg hsg
        · exact hpau hp p hpm
    | false =>
      obtain ⟨⟨seg, hlast, hopen, hdrop⟩, hothers⟩ := hrun2 hp
      rw [stopTimer_running_eq s now e seg hce hp hlast]
      refine ⟨⟨?_, ?_, rfl, ?_⟩, rfl, rfl⟩
      · exact nodup_dbUpdate (fun p => rfl) hnd
      · exact bound_dbUpdate (fun p => rfl) hb
      · intro p' hp'
        obtain ⟨p, hpm, hcase⟩ := mem_dbUpdate_elim hp'
        rcases hcase with ⟨hpi, hpe⟩ | ⟨hpi, hpe⟩ <;> rw [hpe]
        · intro sg hsg
          simp only [List.mem_append, List.mem_singleton] at hsg
          rcases hsg with hsg | hsg
          · exact hdrop sg hsg
          · rw [hsg]
            simp
        · exact hothers p hpm hpi

theorem allClosed_dbUpdate {db : DB} {i : Nat} {f : Project → Project}
    (hf : ∀ p, (f p).segments = p.segments)
    (h : ∀ p ∈ db, closedProj p) : ∀ p ∈ dbUpdate db i f, closedProj p := by
  intro p' hp'
  obtain ⟨p, hpm, hcase⟩ := mem_dbUpdate_elim hp'
  rcases hcase with ⟨_, hpe⟩ | ⟨_, hpe⟩ <;> rw [hpe]
  · intro sg hsg
    rw [hf] at hsg
    exact h p hpm sg hsg
  · exact h p hpm

theorem dbGet_fresh (db : DB) (q : Project) (hfresh : ∀ p ∈ db, p.id ≠ q.id) :
    dbGet (db ++ [q]) q.id = some q := by
  induction db with
  | nil => simp [dbGet, List.find?]
  | cons p rest ih =>
    rw [List.cons_append, dbGet_cons, if_neg (hfresh p (by simp))]
    exact ih (fun r hr => hfresh r (by simp [hr]))

theorem inv_auto_stop (s : StoreState) (now : Int) (h : Inv s) :
    Inv (if s.isTimerRunning && s.currentEntry.isSome then stopTimer s now else s) ∧
    (if s.isTimerRunning && s.currentEntry.isSome then stopTimer s now
     else s).currentEntry = none := by
  cases hce : s.currentEntry with
  | some e =>
    have hrun : s.isTimerRunning = true := by
      obtain ⟨-, -, hrest⟩ := h
      rw [hce] at hrest
      exact hrest.1
    simp only [hce, hrun, Option.isSome_some, Bool.and_self, if_true]
    have hs := inv_stop s now h
    exact ⟨hs.1, hs.2.1⟩
  | none =>
    simp only [hce, Option.isSome_none, Bool.and_false, Bool.false_eq_true, if_false]
    exact ⟨h, by simp [hce]⟩

theorem inv_start_assemble (db2 : DB) (q : Project) (seg : TimeSegment)
    (hnd : (db2.map Project.id).Nodup) (hb : ∀ p ∈ db2, p.id < q.id)
    (hqsegs : q.segments = [seg]) (hopen : seg.endTime = none)
    (hclosed : ∀ p ∈ db2, closedProj p) :
    Inv { currentEntry := some q, isTimerRunning := true, isPaused := false,
          currentDisplayTime := 0, totalAccumulatedTime := 0,
          db := db2 ++ [q], nextId := q.id + 1 } := by
  refine ⟨?_, ?_, rfl, ?_, ?_, ?_⟩
  · rw [List.map_append]
    refine List.Nodup.append hnd (List.nodup_singleton q.id) ?_
    intro a ha hb2
    simp only [List.map_singleton, List.mem_singleton] at hb2
    obtain ⟨p, hp, rfl⟩ := List.mem_map.mp ha
    have := hb p hp
    omega
  · intro p hp
    show p.id < q.id + 1
    rcases List.mem_append.mp hp with hp | hp
    · have := hb p hp
      omega
    · simp only [List.mem_singleton] at hp
      rw [hp]
      omega
  · exact dbGet_fresh db2 q (fun p hp => by have := hb p hp; intro he; omega)
  · intro hcontra
    exact absurd hcontra (by simp)
  · intro _
    refine ⟨⟨seg, by rw [hqsegs]; rfl, hopen, by rw [hqsegs]; simp⟩, ?_⟩
    intro p hp hne
    rcases List.mem_append.mp hp with hp | hp
    · exact hclosed p hp
    · simp only [List.mem_singleton] at hp
      rw [hp] at hne
      exact absurd rfl hne

theorem inv_start (s : StoreState) (now : Int) (title notes : String)
    (tags : List String) (parentId : Option Nat) (h : Inv s) :
    Inv (startTimer s now title notes tags parentId) := by
  obtain ⟨h1, hce1⟩ := inv_auto_stop s now h
  unfold startTimer
  obtain ⟨hnd1, hb1, hrest1⟩ := h1
  rw [hce1] at hrest1
  obtain ⟨-, hclosed1⟩ := hrest1
  cases parentId with
  | none => exact inv_start_assemble _ _ _ hnd1 hb1 rfl rfl hclosed1
  | some pid =>
    cases hg : dbGet (if s.isTimerRunning && s.currentEntry.isSome then
        stopTimer s now else s).db pid with
    | none =>
      simp only [hg]
      exact inv_start_assemble _ _ _ hnd1 hb1 rfl rfl hclosed1
    | some parent =>
      simp only [hg]
      exact inv_start_assemble _ _ _
        (nodup_dbUpdate (fun p => rfl) hnd1)
        (bound_dbUpdate (fun p => rfl) hb1) rfl rfl
        (allClosed_dbUpdate (fun p => rfl) hclosed1)

theorem inv_paused_assemble (s' : StoreState) (e' : Project)
    (hce : s'.currentEntry = some e') (hrun : s'.isTimerRunning = true)
    (hp : s'.isPaused = true)
    (hnd : (s'.db.map Project.id).Nodup) (hb : ∀ p ∈ s'.db, p.id < s'.nextId)
    (hsync : dbGet s'.db e'.id = some e')
    (hclosed : ∀ p ∈ s'.db, closedProj p) : Inv s' := by
  refine ⟨hnd, hb, ?_⟩
  rw [hce]
  exact ⟨hrun, hsync, fun _ => hclosed,
    fun hf => by rw [hf] at hp; exact Bool.noConfusion hp⟩

theorem inv_running_assemble (s' : StoreState) (e' : Project) (seg : TimeSegment)
    (hce : s'.currentEntry = some e') (hrun : s'.isTimerRunning = true)
    (hp : s'.isPaused = false)
    (hnd : (s'.db.map Project.id).Nodup) (hb : ∀ p ∈ s'.db, p.id < s'.nextId)
    (hsync : dbGet s'.db e'.id = some e')
    (hlast : e'.segments.getLast? = some seg) (hopen : seg.endTime = none)
    (hdrop : ∀ sg ∈ e'.segments.dropLast, sg.endTime ≠ none)
    (hothers : ∀ p ∈ s'.db, p.id ≠ e'.id → closedProj p) : Inv s' := by
  refine ⟨hnd, hb, ?_⟩
  rw [hce]
  exact ⟨hrun, hsync,
    fun ht => by rw [ht] at hp; exact Bool.noConfusion hp,
    fun _ => ⟨⟨seg, hlast, hopen, hdrop⟩, hothers⟩⟩

theorem pauseTimer_running_eq (s : StoreState) (now : Int) (e : Project) (seg : TimeSegment)
    (hce : s.currentEntry = some e) (hrun : s.isTimerRunning = true)
    (hp : s.isPaused = false) (hlast : e.segments.getLast? = some seg) :
    pauseTimer s now =
      { s with
        currentEntry := dbGet (dbUpdate s.db e.id (pauseUpd e seg now)) e.id,
        isPaused := true,
        totalAccumulatedTime := sumDurations (closedSegs e seg now),
        db := dbUpdate s.db e.id (pauseUpd e seg now) } := by
  unfold pauseTimer
  rw [hce]
  simp [hrun, hp, hlast]
  refine ⟨?_, ?_, ?_⟩ <;> rfl

theorem inv_pause (s : StoreState) (now : Int) (h : Inv s) : Inv (pauseTimer s now) := by
  cases hce : s.currentEntry with
  | none =>
    have heq : pauseTimer s now = s := by simp [pauseTimer, hce]
    rw [heq]
    exact h
  | some e =>
    cases hp : s.isPaused with
    | true =>
      rw [pauseTimer_paused s now hp]
      exact h
    | false =>
      cases hr : s.isTimerRunning with
      | false =>
        rw [pauseTimer_not_running s now hr]
        exact h
      | true =>
        obtain ⟨hnd, hb, hrest⟩ := h
        rw [hce] at hrest
        obtain ⟨-, hsync, -, hrun2⟩ := hrest
        obtain ⟨⟨seg, hlast, hopen, hdrop⟩, hothers⟩ := hrun2 hp
        rw [pauseTimer_running_eq s now e seg hce hr hp hlast]
        have hget : dbGet (dbUpdate s.db e.id (pauseUpd e seg now)) e.id =
            some (pauseUpd e seg now e) := by
          rw [dbGet_dbUpdate s.db e.id (pauseUpd e seg now) (fun p => rfl),
            if_pos rfl, hsync]
          rfl
        refine inv_paused_assemble _ _ hget hr rfl
          (nodup_dbUpdate (fun p => rfl) hnd)
          (bound_dbUpdate (fun p => rfl) hb) hget ?_
        intro p' hp'
        obtain ⟨p, hpm, hcase⟩ := mem_dbUpdate_elim hp'
        rcases hcase with ⟨hpi, hpe⟩ | ⟨hpi, hpe⟩ <;> rw [hpe]
        · intro sg hsg
          simp only [pauseUpd, closedSegs, List.mem_append, List.mem_singleton] at hsg
          rcases hsg with hsg | hsg
          · exact hdrop sg hsg
          · rw [hsg]
            simp
        · exact hothers p hpm hpi

theorem resumeTimer_eq (s : StoreState) (now : Int) (e : Project)
    (hce : s.currentEntry = some e) (hp : s.isPaused = true) :
    resumeTimer s now =
      { s with
        currentEntry := dbGet (dbUpdate s.db e.id (resumeUpd e now)) e.id,
        isTimerRunning := true, isPaused := false, currentDisplayTime := 0,
        db := dbUpdate s.db e.id (resumeUpd e now) } := by
  unfold resumeTimer
  rw [hce]
  simp [hp]
  refine ⟨?_, ?_⟩ <;> rfl

theorem inv_resume (s : StoreState) (now : Int) (h : Inv s) : Inv (resumeTimer s now) := by
  cases hce : s.currentEntry with
  | none =>
    have heq : resumeTimer s now = s := by simp [resumeTimer, hce]
    rw [heq]
    exact h
  | some e =>
    cases hp : s.isPaused with
    | false =>
      have heq : resumeTimer s now = s := by simp [resumeTimer, hce, hp]
      rw [heq]
      exact h
    | true =>
      obtain ⟨hnd, hb, hrest⟩ := h
      rw [hce] at hrest
      obtain ⟨hrun, hsync, hpau, -⟩ := hrest
      have hclosed := hpau hp
      rw [resumeTimer_eq s now e hce hp]
      have hget : dbGet (dbUpdate s.db e.id (resumeUpd e now)) e.id =
          some (resumeUpd e now e) := by
        rw [dbGet_dbUpdate s.db e.id (resumeUpd e now) (fun p => rfl), if_pos rfl, hsync]
        rfl
      refine inv_running_assemble _ (resumeUpd e now e) (openSeg now) hget rfl rfl
        (nodup_dbUpdate (fun p => rfl) hnd) (bound_dbUpdate (fun p => rfl) hb) hget
        (List.getLast?_concat _) rfl ?_ ?_
      · show ∀ sg ∈ (e.segments ++ [openSeg now]).dropLast, sg.endTime ≠ none
        rw [List.dropLast_concat]
        intro sg hsg
        exact hclosed e (dbGet_eq_some hsync).1 sg hsg
      · intro p' hp' hne
        obtain ⟨p, hpm, hcase⟩ := mem_dbUpdate_elim hp'
        rcases hcase with ⟨hpi, hpe⟩ | ⟨hpi, hpe⟩
        · exact absurd (by rw [hpe]; exact hpi) hne
        · rw [hpe]
          exact hclosed p hpm

theorem inv_task (s : StoreState) (now : Int) (entryId : Nat) (h : Inv s) :
    Inv (resumeTask s now entryId) := by
  obtain ⟨h1, hce1⟩ := inv_auto_stop s now h
  unfold resumeTask
  have hnd1 := h1.1
  have hb1 := h1.2.1
  have hrest1 := h1.2.2
  rw [hce1] at hrest1
  have hclosed1 := hrest1.2
  cases hg : dbGet (if s.isTimerRunning && s.currentEntry.isSome then
      stopTimer s now else s).db entryId with
  | none =>
    simp only [hg]
    exact h1
  | some entry =>
    simp only [hg]
    have hids := dbGet_eq_some hg
    have hget : dbGet (dbUpdate (if s.isTimerRunning && s.currentEntry.isSome then
        stopTimer s now else s).db entryId (taskUpd entry now)) entryId =
        some (taskUpd entry now entry) := by
      rw [dbGet_dbUpdate _ entryId (taskUpd entry now) (fun p => rfl), if_pos rfl, hg]
      rfl
    have hsync : dbGet (dbUpdate (if s.isTimerRunning && s.currentEntry.isSome then
        stopTimer s now else s).db entryId (taskUpd entry now))
        (taskUpd entry now entry).id = some (taskUpd entry now entry) := by
      have h2 : (taskUpd entry now entry).id = entryId := hids.2
      rw [h2]
      exact hget
    refine inv_running_assemble _ (taskUpd entry now entry) (openSeg now) hget rfl rfl
      (nodup_dbUpdate (fun p => rfl) hnd1) (bound_dbUpdate (fun p => rfl) hb1) hsync
      (List.getLast?_concat _) rfl ?_ ?_
    · show ∀ sg ∈ (entry.segments ++ [openSeg now]).dropLast, sg.endTime ≠ none
      rw [List.dropLast_concat]
      intro sg hsg
      exact hclosed1 entry hids.1 sg hsg
    · intro p' hp' hne
      obtain ⟨p, hpm, hcase⟩ := mem_dbUpdate_elim hp'
      rcases hcase with ⟨hpi, hpe⟩ | ⟨hpi, hpe⟩
      · refine absurd ?_ hne
        rw [hpe]
        show p.id = entry.id
        have h3 := hids.2
        omega
      · rw [hpe]
        exact hclosed1 p hpm

theorem inv_idle : Inv idleState :=
  ⟨List.nodup_nil, by simp [idleState], rfl, by simp [idleState]⟩

theorem inv_step (s : StoreState) (a : Action) (h : Inv s) : Inv (step s a) := by
  cases a with
  | start now title notes tags parentId => exact inv_start s now title notes tags parentId h
  | pause now => exact inv_pause s now h
  | resume now => exact inv_resume s now h
  | stop now => exact (inv_stop s now h).1
  | task now entryId => exact inv_task s now entryId h

theorem inv_run (as : List Action) : ∀ s : StoreState, Inv s → Inv (run s as) := by
  induction as with
  | nil => exact fun s hs => hs
  | cons a rest ih => exact fun s hs => ih (step s a) (inv_step s a hs)

/-- C1: starting from the idle store, after any sequence of timer
transitions (start, pause, resume, stop, resumeTask) at most one segment
across all stored projects has `endTime = null`. -/
theorem claim_C1 (as : List Action) : dbOpenCount (run idleState as).db ≤ 1 :=
  inv_open_le_one _ (inv_run as idleState inv_idle)

theorem find?_setTotal (ts : List (Nat × Int)) (pid : Nat) (v : Int) (q : Nat) :
    (setTotal ts pid v).find? (fun kv => kv.1 == q) =
      if q = pid then (ts.find? (fun kv => kv.1 == pid)).map (fun kv => (kv.1, v))
      else ts.find? (fun kv => kv.1 == q) := by
  induction ts with
  | nil => simp [setTotal]
  | cons kv rest ih =>
    have hstep : setTotal (kv :: rest) pid v =
        (if kv.1 = pid then (kv.1, v) else kv) :: setTotal rest pid v := by
      simp only [setTotal, List.map_cons, beq_iff_eq]
    rw [hstep]
    by_cases h1 : kv.1 = pid
    · by_cases h2 : q = pid
      · subst h2
        simp [List.find?_cons, h1]
      · have h3 : ¬ kv.1 = q := by omega
        have hb : (pid == q) = false := by
          rw [beq_eq_false_iff_ne]
          omega
        simp [List.find?_cons, h1, h2, h3, hb, ih]
    · by_cases h2 : q = pid
      · subst h2
        simp [List.find?_cons, h1, ih]
      · by_cases h3 : kv.1 = q <;> simp [List.find?_cons, h1, h2, h3, ih]

theorem lookupTotal_setTotal_ne (ts : List (Nat × Int)) (cal : List Nat)
    (pid : Nat) (v : Int) (q : Nat) (hne : q ≠ pid) :
    lookupTotal ⟨setTotal ts pid v, cal⟩ q = lookupTotal ⟨ts, cal⟩ q := by
  unfold lookupTotal
  rw [find?_setTotal, if_neg hne]

theorem lookupTotal_setTotal_self (ts : List (Nat × Int)) (cal : List Nat)
    (pid : Nat) (v : Int)
    (hk : (ts.find? (fun kv => kv.1 == pid)).isSome = true) :
    lookupTotal ⟨setTotal ts pid v, cal⟩ pid = v := by
  unfold lookupTotal
  rw [find?_setTotal, if_pos rfl]
  cases hf : ts.find? (fun kv => kv.1 == pid) with
  | none => rw [hf] at hk; exact Bool.noConfusion hk
  | some kv => simp

theorem find?_isSome_setTotal (ts : List (Nat × Int)) (pid : Nat) (v : Int) (q : Nat) :
    ((setTotal ts pid v).find? (fun kv => kv.1 == q)).isSome =
      (ts.find? (fun kv => kv.1 == q)).isSome := by
  rw [find?_setTotal]
  by_cases h : q = pid
  · subst h
    simp
  · rw [if_neg h]

theorem aggExtends_refl (st : AggState) : AggExtends st st :=
  ⟨fun q hq => hq, fun q _ => rfl, fun q => rfl⟩

theorem aggExtends_trans {s1 s2 s3 : AggState}
    (h12 : AggExtends s1 s2) (h23 : AggExtends s2 s3) : AggExtends s1 s3 := by
  refine ⟨fun q hq => h23.1 q (h12.1 q hq), fun q hq => ?_, fun q => (h23.2.2 q).trans (h12.2.2 q)⟩
  rw [h23.2.1 q (h12.1 q hq), h12.2.1 q hq]

theorem calcAgg_eq_memo (own : Nat → Option Int) (children : Nat → List Nat)
    (fuel : Nat) (st : AggState) (pid : Nat) (hmem : pid ∈ st.calculated) :
    calcAgg own children (fuel + 1) st pid = (st, lookupTotal st pid) := by
  unfold calcAgg
  simp [hmem]

theorem calcAgg_eq_none (own : Nat → Option Int) (children : Nat → List Nat)
    (fuel : Nat) (st : AggState) (pid : Nat) (hmem : pid ∉ st.calculated)
    (hown : own pid = none) :
    calcAgg own children (fuel + 1) st pid = (st, 0) := by
  unfold calcAgg
  simp [hmem, hown]

theorem calcAgg_eq_compute (own : Nat → Option Int) (children : Nat → List Nat)
    (fuel : Nat) (st : AggState) (pid : Nat) (ownS : Int)
    (hmem : pid ∉ st.calculated) (hown : own pid = some ownS) :
    calcAgg own children (fuel + 1) st pid =
      (⟨setTotal ((children pid).foldl (aggStep own children fuel) (st, ownS)).1.totals
          pid (max 0 ((children pid).foldl (aggStep own children fuel) (st, ownS)).2),
        pid :: ((children pid).foldl (aggStep own children fuel) (st, ownS)).1.calculated⟩,
       max 0 ((children pid).foldl (aggStep own children fuel) (st, ownS)).2) := by
  unfold calcAgg
  simp only [if_neg hmem, hown]
  rfl

theorem calcAgg_extends (own : Nat → Option Int) (children : Nat → List Nat) :
    ∀ (fuel : Nat) (st : AggState) (pid : Nat),
      AggExtends st (calcAgg own children fuel st pid).1 := by
  intro fuel
  induction fuel with
  | zero => exact fun st pid => aggExtends_refl st
  | succ fuel ih =>
    have hfold : ∀ (cs : List Nat) (st0 : AggState) (acc : Int),
        AggExtends st0 (cs.foldl (aggStep own children fuel) (st0, acc)).1 := by
      intro cs
      induction cs with
      | nil => exact fun st0 acc => aggExtends_refl st0
      | cons c cs' ihc =>
        intro st0 acc
        rw [List.foldl_cons]
        by_cases hc : (own c).isSome
        · have hstep : aggStep own children fuel (st0, acc) c =
              ((calcAgg own children fuel st0 c).1,
                acc + (calcAgg own children fuel st0 c).2) := by
            simp [aggStep, hc]
          rw [hstep]
          exact aggExtends_trans (ih st0 c) (ihc _ _)
        · have hstep : aggStep own children fuel (st0, acc) c = (st0, acc) := by
            simp [aggStep, hc]
          rw [hstep]
          exact ihc st0 acc
    intro st pid
    by_cases hmem : pid ∈ st.calculated
    · rw [calcAgg_eq_memo own children fuel st pid hmem]
      exact aggExtends_refl st
    · cases hown : own pid with
      | none =>
        rw [calcAgg_eq_none own children fuel st pid hmem hown]
        exact aggExtends_refl st
      | some ownS =>
        rw [calcAgg_eq_compute own children fuel st pid ownS hmem hown]
        have hf := hfold (children pid) st ownS
        refine ⟨fun q hq => List.mem_cons_of_mem _ (hf.1 q hq), fun q hq => ?_, fun q => ?_⟩
        · have hqne : q ≠ pid := fun he => hmem (he ▸ hq)
          rw [show lookupTotal
              ⟨setTotal ((children pid).foldl (aggStep own children fuel) (st, ownS)).1.totals
                pid (max 0 ((children pid).foldl (aggStep own children fuel) (st, ownS)).2),
               pid :: ((children pid).foldl (aggStep own children fuel) (st, ownS)).1.calculated⟩ q
            = lookupTotal ((children pid).foldl (aggStep own children fuel) (st, ownS)).1 q from ?_]
          · exact hf.2.1 q hq
          · rw [lookupTotal_setTotal_ne]
            · rfl
            · exact hqne
        · rw [show ((⟨setTotal ((children pid).foldl (aggStep own children fuel) (st, ownS)).1.totals
                pid (max 0 ((children pid).foldl (aggStep own children fuel) (st, ownS)).2),
               pid :: ((children pid).foldl (aggStep own children fuel) (st, ownS)).1.calculated⟩ :
               AggState).totals.find? (fun kv => kv.1 == q)).isSome
            = (((children pid).foldl (aggStep own children fuel) (st, ownS)).1.totals.find?
                (fun kv => kv.1 == q)).isSome from find?_isSome_setTotal _ _ _ _]
          exact hf.2.2 q

theorem aggStep_fold_extends (own : Nat → Option Int) (children : Nat → List Nat)
    (fuel : Nat) :
    ∀ (cs : List Nat) (st0 : AggState) (acc : Int),
      AggExtends st0 ((cs.foldl (aggStep own children fuel) (st0, acc)).1) := by
  intro cs
  induction cs with
  | nil => exact fun st0 acc => aggExtends_refl st0
  | cons c cs' ihc =>
    intro st0 acc
    rw [List.foldl_cons]
    by_cases hc : (own c).isSome
    · have hstep : aggStep own children fuel (st0, acc) c =
          ((calcAgg own children fuel st0 c).1,
            acc + (calcAgg own children fuel st0 c).2) := by
        simp [aggStep, hc]
      rw [hstep]
      exact aggExtends_trans (calcAgg_extends own children fuel st0 c) (ihc _ _)
    · have hstep : aggStep own children fuel (st0, acc) c = (st0, acc) := by
        simp [aggStep, hc]
      rw [hstep]
      exact ihc st0 acc

theorem listChildSum_congr (own : Nat → Option Int) (st st' : AggState) (cs : List Nat)
    (h : ∀ c ∈ cs, (own c).isSome = true → lookupTotal st' c = lookupTotal st c) :
    listChildSum own st' cs = listChildSum own st cs := by
  unfold listChildSum
  refine congrArg List.sum (List.map_congr_left ?_)
  intro c hc
  exact h c (List.mem_filter.mp hc).1 (by simpa using (List.mem_filter.mp hc).2)

theorem calcAgg_correct (own : Nat → Option Int) (children : Nat → List Nat)
    (rank : Nat → Nat) (hrank : ∀ pid c, c ∈ children pid → rank c < rank pid) :
    ∀ (fuel : Nat) (st : AggState) (pid : Nat), Coherent own children st →
      rank pid < fuel →
      Coherent own children (calcAgg own children fuel st pid).1 ∧
      ((own pid).isSome → pid ∈ (calcAgg own children fuel st pid).1.calculated) ∧
      (∀ q ∈ (calcAgg own children fuel st pid).1.calculated,
        q ∈ st.calculated ∨ rank q ≤ rank pid) ∧
      ((own pid).isSome →
        (calcAgg own children fuel st pid).2 =
          lookupTotal (calcAgg own children fuel st pid).1 pid) := by
  intro fuel
  induction fuel with
  | zero =>
    intro st pid _ hlt
    omega
  | succ fuel ih =>
    have hfold : ∀ (cs : List Nat), (∀ c ∈ cs, rank c < fuel) →
        ∀ (st0 : AggState) (acc : Int), Coherent own children st0 →
        Coherent own children ((cs.foldl (aggStep own children fuel) (st0, acc)).1) ∧
        (∀ c ∈ cs, (own c).isSome →
          c ∈ ((cs.foldl (aggStep own children fuel) (st0, acc)).1).calculated) ∧
        ((cs.foldl (aggStep own children fuel) (st0, acc)).2 =
          acc + listChildSum own ((cs.foldl (aggStep own children fuel) (st0, acc)).1) cs) ∧
        (∀ q ∈ ((cs.foldl (aggStep own children fuel) (st0, acc)).1).calculated,
          q ∈ st0.calculated ∨ ∃ c ∈ cs, rank q ≤ rank c) := by
      intro cs
      induction cs with
      | nil =>
        intro _ st0 acc hcoh
        refine ⟨hcoh, by simp, ?_, fun q hq => Or.inl hq⟩
        simp [listChildSum]
      | cons c cs' ihc =>
        intro hcs st0 acc hcoh
        rw [List.foldl_cons]
        by_cases hc : (own c).isSome
        · have hstep : aggStep own children fuel (st0, acc) c =
              ((calcAgg own children fuel st0 c).1,
                acc + (calcAgg own children fuel st0 c).2) := by
            simp [aggStep, hc]
          rw [hstep]
          have hrc : rank c < fuel := hcs c (by simp)
          have hC := ih st0 c hcoh hrc
          have hIH := ihc (fun d hd => hcs d (by simp [hd]))
            (calcAgg own children fuel st0 c).1
            (acc + (calcAgg own children fuel st0 c).2) hC.1
          have hextf := aggStep_fold_extends own children fuel cs'
            (calcAgg own children fuel st0 c).1
            (acc + (calcAgg own children fuel st0 c).2)
          have hcmark : c ∈ (calcAgg own children fuel st0 c).1.calculated := hC.2.1 hc
          refine ⟨hIH.1, ?_, ?_, ?_⟩
          · intro d hd hds
            rcases List.mem_cons.mp hd with rfl | hd'
            · exact hextf.1 d hcmark
            · exact hIH.2.1 d hd' hds
          · have hval : (calcAgg own children fuel st0 c).2 =
                lookupTotal (calcAgg own children fuel st0 c).1 c := hC.2.2.2 hc
            have hstable : lookupTotal
                ((cs'.foldl (aggStep own children fuel)
                  ((calcAgg own children fuel st0 c).1,
                    acc + (calcAgg own children fuel st0 c).2)).1) c =
                lookupTotal (calcAgg own children fuel st0 c).1 c :=
              hextf.2.1 c hcmark
            have hsumcons : listChildSum own
                ((cs'.foldl (aggStep own children fuel)
                  ((calcAgg own children fuel st0 c).1,
                    acc + (calcAgg own children fuel st0 c).2)).1) (c :: cs') =
                lookupTotal ((cs'.foldl (aggStep own children fuel)
                  ((calcAgg own children fuel st0 c).1,
                    acc + (calcAgg own children fuel st0 c).2)).1) c +
                listChildSum own ((cs'.foldl (aggStep own children fuel)
                  ((calcAgg own children fuel st0 c).1,
                    acc + (calcAgg own children fuel st0 c).2)).1) cs' := by
              unfold listChildSum
              rw [show List.filter (fun d => (own d).isSome) (c :: cs') =
                  c :: List.filter (fun d => (own d).isSome) cs' from
                List.filter_cons_of_pos hc, List.map_cons, List.sum_cons]
            rw [hIH.2.2.1, hsumcons, hstable, ← hval]
            omega
          · intro q hq
            rcases hIH.2.2.2 q hq with hq1 | ⟨d, hd, hled⟩
            · rcases hC.2.2.1 q hq1 with hq0 | hle
              · exact Or.inl hq0
              · exact Or.inr ⟨c, by simp, hle⟩
            · exact Or.inr ⟨d, by simp [hd], hled⟩
        · have hstep : aggStep own children fuel (st0, acc) c = (st0, acc) := by
            simp [aggStep, hc]
          rw [hstep]
          have hIH := ihc (fun d hd => hcs d (by simp [hd])) st0 acc hcoh
          refine ⟨hIH.1, ?_, ?_, ?_⟩
          · intro d hd hds
            rcases List.mem_cons.mp hd with rfl | hd'
            · rw [hds] at hc
              exact absurd rfl hc
            · exact hIH.2.1 d hd' hds
          · have hsumcons : listChildSum own
                ((cs'.foldl (aggStep own children fuel) (st0, acc)).1) (c :: cs') =
                listChildSum own ((cs'.foldl (aggStep own children fuel) (st0, acc)).1) cs' := by
              unfold listChildSum
              rw [show List.filter (fun d => (own d).isSome) (c :: cs') =
                  List.filter (fun d => (own d).isSome) cs' from
                List.filter_cons_of_neg (by simpa using hc)]
            rw [hIH.2.2.1, hsumcons]
          · intro q hq
            rcases hIH.2.2.2 q hq with hq1 | ⟨d, hd, hled⟩
            · exact Or.inl hq1
            · exact Or.inr ⟨d, by simp [hd], hled⟩
    intro st pid hcoh hlt
    by_cases hmem : pid ∈ st.calculated
    · rw [calcAgg_eq_memo own children fuel st pid hmem]
      exact ⟨hcoh, fun _ => hmem, fun q hq => Or.inl hq, fun _ => rfl⟩
    · cases hown : own pid with
      | none =>
        rw [calcAgg_eq_none own children fuel st pid hmem hown]
        refine ⟨hcoh, ?_, fun q hq => Or.inl hq, ?_⟩
        · intro hs
          exact absurd hs (by simp)
        · intro hs
          exact absurd hs (by simp)
      | some ownS =>
        rw [calcAgg_eq_compute own children fuel st pid ownS hmem hown]
        have hcs : ∀ c ∈ children pid, rank c < fuel := by
          intro c hc
          have := hrank pid c hc
          omega
        have hf := hfold (children pid) hcs st ownS hcoh
        have hpidnotF : pid ∉
            ((children pid).foldl (aggStep own children fuel) (st, ownS)).1.calculated := by
          intro hin
          rcases hf.2.2.2 pid hin with h1 | ⟨c, hcmem, hle⟩
          · exact hmem h1
          · have := hrank pid c hcmem
            omega
        have hkeys : (((children pid).foldl (aggStep own children fuel)
            (st, ownS)).1.totals.find? (fun kv => kv.1 == pid)).isSome = true :=
          hf.1.2.1 pid (by rw [hown]; rfl)
        have hchild_ne : ∀ c ∈ children pid, c ≠ pid := by
          intro c hc he
          have := hrank pid c hc
          rw [he] at this
          omega
        have hlookup_pid : lookupTotal
            ⟨setTotal ((children pid).foldl (aggStep own children fuel) (st, ownS)).1.totals
              pid (max 0 ((children pid).foldl (aggStep own children fuel) (st, ownS)).2),
             pid :: ((children pid).foldl (aggStep own children fuel) (st, ownS)).1.calculated⟩
            pid = max 0 ((children pid).foldl (aggStep own children fuel) (st, ownS)).2 :=
          lookupTotal_setTotal_self _ _ _ _ hkeys
        have hlookup_ne : ∀ q, q ≠ pid → lookupTotal
            ⟨setTotal ((children pid).foldl (aggStep own children fuel) (st, ownS)).1.totals
              pid (max 0 ((children pid).foldl (aggStep own children fuel) (st, ownS)).2),
             pid :: ((children pid).foldl (aggStep own children fuel) (st, ownS)).1.calculated⟩
            q = lookupTotal ((children pid).foldl (aggStep own children fuel) (st, ownS)).1 q := by
          intro q hq
          have := lookupTotal_setTotal_ne
            ((children pid).foldl (aggStep own children fuel) (st, ownS)).1.totals
            (pid :: ((children pid).foldl (aggStep own children fuel) (st, ownS)).1.calculated)
            pid (max 0 ((children pid).foldl (aggStep own children fuel) (st, ownS)).2) q hq
          rw [this]
          rfl
        refine ⟨⟨?_, ?_, ?_⟩, ?_, ?_, ?_⟩
        · exact List.nodup_cons.mpr ⟨hpidnotF, hf.1.1⟩
        · intro q hq
          rw [show ((⟨setTotal ((children pid).foldl (aggStep own children fuel)
              (st, ownS)).1.totals pid
                (max 0 ((children pid).foldl (aggStep own children fuel) (st, ownS)).2),
              pid :: ((children pid).foldl (aggStep own children fuel)
                (st, ownS)).1.calculated⟩ : AggState).totals.find?
              (fun kv => kv.1 == q)).isSome =
            (((children pid).foldl (aggStep own children fuel) (st, ownS)).1.totals.find?
              (fun kv => kv.1 == q)).isSome from find?_isSome_setTotal _ _ _ _]
          exact hf.1.2.1 q hq
        · intro q hq
          rcases List.mem_cons.mp hq with rfl | hq'
          · refine ⟨ownS, hown, ?_, ?_⟩
            · exact fun c hcm hcs2 => List.mem_cons_of_mem _ (hf.2.1 c hcm hcs2)
            · rw [hlookup_pid, hf.2.2.1]
              congr 1
              congr 1
              refine (listChildSum_congr own _ _ (children q) ?_).symm
              intro c hcm _
              exact lookupTotal_setTotal_ne _ _ _ _ _ (hchild_ne c hcm)
          · obtain ⟨v, hv, hch, heq⟩ := hf.1.2.2 q hq'
            refine ⟨v, hv, fun c hcm hcs2 => List.mem_cons_of_mem _ (hch c hcm hcs2), ?_⟩
            have hqne : q ≠ pid := fun he => hpidnotF (he ▸ hq')
            rw [hlookup_ne q hqne, heq]
            congr 1
            congr 1
            exact (listChildSum_congr own _ _ (children q)
              (fun c hcm hcs2 => hlookup_ne c
                (fun he => hpidnotF (he ▸ hch c hcm hcs2)))).symm
        · exact fun _ => List.mem_cons_self pid _
        · intro q hq
          rcases List.mem_cons.mp hq with rfl | hq'
          · exact Or.inr (Nat.le_refl _)
          · rcases hf.2.2.2 q hq' with hq0 | ⟨c, hcm, hle⟩
            · exact Or.inl hq0
            · exact Or.inr (Nat.le_trans hle (Nat.le_of_lt (hrank pid c hcm)))
        · intro _
          exact hlookup_pid.symm

theorem own_isSome_of_mem {projects : List Project} {sd ed : Int} {p : Project}
    (hp : p ∈ projects) : (ownOf projects sd ed p.id).isSome = true := by
  unfold ownOf
  rw [Option.isSome_map']
  unfold dbGet
  rw [List.find?_isSome]
  exact ⟨p, hp, by simp⟩

theorem dbGet_of_mem_nodup {projects : DB}
    (hnd : (projects.map Project.id).Nodup) {p : Project} (hp : p ∈ projects) :
    dbGet projects p.id = some p := by
  induction projects with
  | nil => simp at hp
  | cons r rest ih =>
    rw [dbGet_cons]
    rcases List.mem_cons.mp hp with rfl | hp'
    · rw [if_pos rfl]
    · rw [List.map_cons, List.nodup_cons] at hnd
      have hrne : r.id ≠ p.id := by
        intro he
        exact hnd.1 (he ▸ List.mem_map_of_mem Project.id hp')
      rw [if_neg hrne]
      exact ih hnd.2 hp'

theorem initAgg_coherent (projects : List Project) (sd ed : Int) :
    Coherent (ownOf projects sd ed) (childrenOf projects) (initAgg projects) := by
  refine ⟨List.nodup_nil, ?_, by simp [initAgg]⟩
  intro q hq
  unfold ownOf at hq
  rw [Option.isSome_map'] at hq
  unfold dbGet at hq
  rw [List.find?_isSome] at hq
  obtain ⟨p, hp, hpq⟩ := hq
  rw [List.find?_isSome]
  refine ⟨(p.id, 0), ?_, hpq⟩
  have hm : (p.id, 0) ∈ projects.map (fun r => (r.id, (0 : Int))) :=
    List.mem_map_of_mem (fun r => (r.id, 0)) hp
  simpa [initAgg] using hm

theorem lookupTotal_nonneg_of_calculated {own : Nat → Option Int}
    {children : Nat → List Nat} {st : AggState} {q : Nat}
    (hcoh : Coherent own children st) (hq : q ∈ st.calculated) :
    0 ≤ lookupTotal st q := by
  obtain ⟨v, -, -, heq⟩ := hcoh.2.2 q hq
  rw [heq]
  exact le_max_left 0 _

theorem foldl_add_eq_sum (g : Project → Int) :
    ∀ (l : List Project) (a : Int),
      l.foldl (fun s p => s + g p) a = a + (l.map g).sum := by
  intro l
  induction l with
  | nil => intro a; simp
  | cons p l ih =>
    intro a
    rw [List.foldl_cons, List.map_cons, List.sum_cons, ih]
    ring

theorem ownSeconds_nonneg (sd ed : Int) (p : Project) : 0 ≤ ownSeconds sd ed p := by
  unfold ownSeconds
  suffices h : ∀ (l : List TimeSegment) (a : Int),
      a ≤ l.foldl (fun acc sg => if segInWindow sd ed sg then acc + sg.duration else acc) a from
    h p.segments 0
  intro l
  induction l with
  | nil => exact fun a => le_refl a
  | cons sg l ih =>
    intro a
    rw [List.foldl_cons]
    by_cases hw : segInWindow sd ed sg = true
    · rw [if_pos hw]
      have hpos : (0 : Int) < sg.duration := by
        simp only [segInWindow, Bool.and_eq_true, decide_eq_true_eq] at hw
        exact hw.1.1.2
      refine le_trans ?_ (ih (a + sg.duration))
      omega
    · rw [if_neg hw]
      exact ih a

theorem ownSeconds_eq_claim (sd ed : Int) (p : Project)
    (hdur : ∀ sg ∈ p.segments, 0 ≤ sg.duration) :
    ownSeconds sd ed p =
      ((p.segments.filter (fun sg =>
        decide (sd ≤ sg.startTime) && decide (sg.startTime < ed + 1))).map
          TimeSegment.duration).sum := by
  unfold ownSeconds
  suffices h : ∀ (l : List TimeSegment), (∀ sg ∈ l, 0 ≤ sg.duration) → ∀ a : Int,
      l.foldl (fun acc sg => if segInWindow sd ed sg then acc + sg.duration else acc) a =
        a + ((l.filter (fun sg =>
          decide (sd ≤ sg.startTime) && decide (sg.startTime < ed + 1))).map
            TimeSegment.duration).sum by
    rw [h p.segments hdur 0, zero_add]
  intro l
  induction l with
  | nil => intro _ a; simp
  | cons sg l ih =>
    intro hd a
    have hdsg : 0 ≤ sg.duration := hd sg (by simp)
    have hrest := ih (fun t ht => hd t (by simp [ht]))
    rw [List.foldl_cons]
    by_cases hin : sd ≤ sg.startTime ∧ sg.startTime < ed + 1
    · have hfil : (fun sg => decide (sd ≤ sg.startTime) &&
          decide (sg.startTime < ed + 1)) sg = true := by
        simp [hin.1, hin.2]
      rw [show List.filter (fun sg => decide (sd ≤ sg.startTime) &&
            decide (sg.startTime < ed + 1)) (sg :: l) =
          sg :: List.filter (fun sg => decide (sd ≤ sg.startTime) &&
            decide (sg.startTime < ed + 1)) l from List.filter_cons_of_pos hfil,
        List.map_cons, List.sum_cons]
      by_cases hdp : (0 : Int) < sg.duration
      · have hw : segInWindow sd ed sg = true := by
          simp only [segInWindow, Bool.and_eq_true, decide_eq_true_eq, bne_iff_ne, ne_eq]
          refine ⟨⟨⟨?_, hdp⟩, hin.1⟩, by omega⟩
          omega
        rw [if_pos hw, hrest]
        ring
      · have hz : sg.duration = 0 := by omega
        have hw : ¬ segInWindow sd ed sg = true := by
          simp only [segInWindow, Bool.and_eq_true, decide_eq_true_eq]
          intro hcon
          exact hdp hcon.1.1.2
        rw [if_neg hw, hrest, hz]
        ring
    · have hfil : ¬ ((fun sg => decide (sd ≤ sg.startTime) &&
          decide (sg.startTime < ed + 1)) sg = true) := by
        simp only [Bool.and_eq_true, decide_eq_true_eq]
        intro hcon
        exact hin ⟨hcon.1, hcon.2⟩
      rw [show List.filter (fun sg => decide (sd ≤ sg.startTime) &&
            decide (sg.startTime < ed + 1)) (sg :: l) =
          List.filter (fun sg => decide (sd ≤ sg.startTime) &&
            decide (sg.startTime < ed + 1)) l from
        List.filter_cons_of_neg (by simpa using hfil)]
      have hw : ¬ segInWindow sd ed sg = true := by
        simp only [segInWindow, Bool.and_eq_true, decide_eq_true_eq]
        intro hcon
        exact hin ⟨hcon.1.2, by omega⟩
      rw [if_neg hw]
      exact hrest a

theorem runAgg_eq_foldl (projects : List Project) (sd ed : Int) :
    runAgg projects sd ed = projects.foldl (runStep projects sd ed) (initAgg projects) :=
  rfl

theorem runStep_fold_correct (projects : List Project) (sd ed : Int) (rank : Nat → Nat)
    (hrank : ∀ pid c, c ∈ childrenOf projects pid → rank c < rank pid)
    (hbound : ∀ pid, rank pid < projects.length + 1) :
    ∀ (ps : List Project) (st0 : AggState),
      (∀ p ∈ ps, (ownOf projects sd ed p.id).isSome = true) →
      Coherent (ownOf projects sd ed) (childrenOf projects) st0 →
      Coherent (ownOf projects sd ed) (childrenOf projects)
        (ps.foldl (runStep projects sd ed) st0) ∧
      (∀ q ∈ st0.calculated, q ∈ (ps.foldl (runStep projects sd ed) st0).calculated) ∧
      (∀ p ∈ ps, p.id ∈ (ps.foldl (runStep projects sd ed) st0).calculated) := by
  intro ps
  induction ps with
  | nil =>
    intro st0 _ hcoh
    exact ⟨hcoh, fun q hq => hq, by simp⟩
  | cons p ps' ih =>
    intro st0 hall hcoh
    rw [List.foldl_cons]
    have hps : (ownOf projects sd ed p.id).isSome = true := hall p (by simp)
    have hstep : runStep projects sd ed st0 p =
        (calcAgg (ownOf projects sd ed) (childrenOf projects)
          (projects.length + 1) st0 p.id).1 := by
      simp [runStep, hps]
    rw [hstep]
    have hc := calcAgg_correct (ownOf projects sd ed) (childrenOf projects) rank hrank
      (projects.length + 1) st0 p.id hcoh (hbound p.id)
    have hIH := ih _ (fun r hr => hall r (by simp [hr])) hc.1
    refine ⟨hIH.1, ?_, ?_⟩
    · intro q hq
      exact hIH.2.1 q ((calcAgg_extends _ _ _ st0 p.id).1 q hq)
    · intro r hr
      rcases List.mem_cons.mp hr with rfl | hr'
      · exact hIH.2.1 r.id (hc.2.1 hps)
      · exact hIH.2.2 r hr'

theorem runAgg_correct (projects : List Project) (sd ed : Int) (rank : Nat → Nat)
    (hrank : ∀ pid c, c ∈ childrenOf projects pid → rank c < rank pid)
    (hbound : ∀ pid, rank pid < projects.length + 1) :
    Coherent (ownOf projects sd ed) (childrenOf projects) (runAgg projects sd ed) ∧
    ∀ p ∈ projects, p.id ∈ (runAgg projects sd ed).calculated := by
  rw [runAgg_eq_foldl]
  have h := runStep_fold_correct projects sd ed rank hrank hbound projects
    (initAgg projects) (fun p hp => own_isSome_of_mem hp) (initAgg_coherent projects sd ed)
  exact ⟨h.1, h.2.2⟩

/-- C6: over an acyclic snapshot (witnessed by a rank function decreasing
along parent→child edges) with duplicate-free ids and non-negative cached
durations, the rollup gives every project own-seconds equal to the sum of
durations of its segments whose startTime lies in the window, total-seconds
equal to own-seconds plus the totals of its direct children, computes every
project exactly once (duplicate-free marking order), and shows percentage
totalSeconds / overallTotal * 100 (0 for everyone when the overall total,
the sum of top-level totals, is 0). -/
theorem claim_C6 (projects : List Project) (sd ed : Int) (rank : Nat → Nat)
    (hnodup : (projects.map Project.id).Nodup)
    (hrank : ∀ pid c, c ∈ childrenOf projects pid → rank c < rank pid)
    (hbound : ∀ pid, rank pid < projects.length + 1)
    (hdur : ∀ p ∈ projects, ∀ sg ∈ p.segments, 0 ≤ sg.duration) :
    (∀ p ∈ projects,
      ownSeconds sd ed p =
        ((p.segments.filter (fun sg =>
          decide (sd ≤ sg.startTime) && decide (sg.startTime < ed + 1))).map
            TimeSegment.duration).sum) ∧
    (∀ p ∈ projects,
      lookupTotal (runAgg projects sd ed) p.id =
        ownSeconds sd ed p +
          ((childrenOf projects p.id).map (lookupTotal (runAgg projects sd ed))).sum) ∧
    (runAgg projects sd ed).calculated.Nodup ∧
    overallTotal projects (runAgg projects sd ed) =
      ((topLevel projects).map (fun p => lookupTotal (runAgg projects sd ed) p.id)).sum ∧
    (∀ pid, 0 < overallTotal projects (runAgg projects sd ed) →
      percentageOf (runAgg projects sd ed)
          (overallTotal projects (runAgg projects sd ed)) pid =
        (lookupTotal (runAgg projects sd ed) pid : ℚ) /
          (overallTotal projects (runAgg projects sd ed) : ℚ) * 100) ∧
    (∀ pid, overallTotal projects (runAgg projects sd ed) = 0 →
      percentageOf (runAgg projects sd ed)
        (overallTotal projects (runAgg projects sd ed)) pid = 0) := by
  obtain ⟨hcoh, hmarks⟩ := runAgg_correct projects sd ed rank hrank hbound
  have hchildSome : ∀ pid, ∀ c ∈ childrenOf projects pid,
      (ownOf projects sd ed c).isSome = true := by
    intro pid c hc
    unfold childrenOf at hc
    obtain ⟨q, hq, rfl⟩ := List.mem_map.mp hc
    exact own_isSome_of_mem (List.mem_of_mem_filter hq)
  have hchildCalc : ∀ p ∈ projects, ∀ c ∈ childrenOf projects p.id,
      c ∈ (runAgg projects sd ed).calculated := by
    intro p hp c hc
    obtain ⟨v, hv, hch, -⟩ := hcoh.2.2 p.id (hmarks p hp)
    exact hch c hc (hchildSome p.id c hc)
  have htotal : ∀ p ∈ projects,
      lookupTotal (runAgg projects sd ed) p.id =
        ownSeconds sd ed p +
          ((childrenOf projects p.id).map (lookupTotal (runAgg projects sd ed))).sum := by
    intro p hp
    obtain ⟨v, hv, hch, heq⟩ := hcoh.2.2 p.id (hmarks p hp)
    have hosome : ownOf projects sd ed p.id = some (ownSeconds sd ed p) := by
      unfold ownOf
      rw [dbGet_of_mem_nodup hnodup hp]
      rfl
    have hvown : v = ownSeconds sd ed p := by
      rw [hosome] at hv
      injection hv with h
      exact h.symm
    have hfil : (childrenOf projects p.id).filter
        (fun c => (ownOf projects sd ed c).isSome) = childrenOf projects p.id :=
      List.filter_eq_self.mpr (fun c hc => hchildSome p.id c hc)
    have hsum : listChildSum (ownOf projects sd ed) (runAgg projects sd ed)
        (childrenOf projects p.id) =
        ((childrenOf projects p.id).map (lookupTotal (runAgg projects sd ed))).sum := by
      unfold listChildSum
      rw [hfil]
    have hsum_nonneg : 0 ≤ ((childrenOf projects p.id).map
        (lookupTotal (runAgg projects sd ed))).sum := by
      apply List.sum_nonneg
      intro x hx
      obtain ⟨c, hc, rfl⟩ := List.mem_map.mp hx
      exact lookupTotal_nonneg_of_calculated hcoh (hchildCalc p hp c hc)
    have hown_nonneg := ownSeconds_nonneg sd ed p
    rw [heq, hsum, hvown]
    exact max_eq_right (by omega)
  have hoverall : overallTotal projects (runAgg projects sd ed) =
      ((topLevel projects).map (fun p => lookupTotal (runAgg projects sd ed) p.id)).sum := by
    unfold overallTotal
    rw [foldl_add_eq_sum (fun p => lookupTotal (runAgg projects sd ed) p.id)
      (topLevel projects) 0, zero_add]
    apply max_eq_right
    apply List.sum_nonneg
    intro x hx
    obtain ⟨p, hp, rfl⟩ := List.mem_map.mp hx
    exact lookupTotal_nonneg_of_calculated hcoh (hmarks p (List.mem_of_mem_filter hp))
  refine ⟨fun p hp => ownSeconds_eq_claim sd ed p (hdur p hp), htotal, hcoh.1, hoverall,
    ?_, ?_⟩
  · intro pid hpos
    unfold percentageOf
    rw [if_pos hpos]
  · intro pid hzero
    unfold percentageOf
    rw [hzero]
    rw [if_neg (lt_irrefl 0)]

/-- Witness for C6: the two-project snapshot, window [0, 100]. -/
theorem claim_C6_witness :
    lookupTotal (runAgg aggProjectsEx 0 100) 0 =
      ownSeconds 0 100 aggP0 +
        ((childrenOf aggProjectsEx 0).map (lookupTotal (runAgg aggProjectsEx 0 100))).sum ∧
    lookupTotal (runAgg aggProjectsEx 0 100) 1 =
      ownSeconds 0 100 aggP1 +
        ((childrenOf aggProjectsEx 1).map (lookupTotal (runAgg aggProjectsEx 0 100))).sum ∧
    (runAgg aggProjectsEx 0 100).calculated.Nodup := by
  have hrank : ∀ pid c, c ∈ childrenOf aggProjectsEx pid → aggRankEx c < aggRankEx pid := by
    intro pid c hc
    by_cases hp : pid = 0
    · subst hp
      simp [childrenOf, aggProjectsEx, aggP0, aggP1] at hc
      simp [aggRankEx, hc]
    · have hp' : ¬ (0 : Nat) = pid := fun h => hp h.symm
      simp [childrenOf, aggProjectsEx, aggP0, aggP1, hp'] at hc
  have hbound : ∀ pid, aggRankEx pid < aggProjectsEx.length + 1 := by
    intro pid
    simp only [aggRankEx, aggProjectsEx]
    split <;> simp
  have h := claim_C6 aggProjectsEx 0 100 aggRankEx (by decide) hrank hbound (by decide)
  exact ⟨h.2.1 aggP0 (by simp [aggProjectsEx]), h.2.1 aggP1 (by simp [aggProjectsEx]),
    h.2.2.1⟩

end Chronos